import Mathlib

/-!
Shallow embedding of the wrehub ingestion pipeline (Django management
commands `import_permit_xml`, `import_use_permit_xml`,
`import_urban_renewal_raw_csv`, and `hub/utils.py`) in Lean 4.

Python strings are modelled as `List Char`; a computation that can raise
an uncaught Python exception is modelled in `PyResult`.  Python `Decimal`
values are modelled exactly as coefficient/exponent pairs (`Dec`,
mirroring `Decimal`'s tuple representation); `datetime.date` as a
validated year/month/day record.
-/

namespace Wrehub

/-- A Python computation that either returns a value or raises an
uncaught exception. -/
inductive PyResult (α : Type) where
  | ok (a : α) : PyResult α
  | exn : PyResult α
  deriving Repr, DecidableEq

/-- The non-raising outcome, when there is one. -/
def PyResult.toOption {α : Type} : PyResult α → Option α
  | .ok a => some a
  | .exn => none

/-- Python `\s` whitespace class (ASCII part; the relevant code paths
only meet these whitespace code points). -/
def pyIsSpace (c : Char) : Bool :=
  c = ' ' || c = '\t' || c = '\n' || c = '\r' || c = '\x0b' || c = '\x0c'

/-- Python `str.strip()`: drop leading and trailing whitespace. -/
def pyStrip (s : List Char) : List Char :=
  ((s.dropWhile pyIsSpace).reverse.dropWhile pyIsSpace).reverse

/-- Auxiliary state machine for `re.sub(r"\s+", " ", s)`: every maximal
run of whitespace becomes a single space.  The boolean records whether
the previous character belonged to a whitespace run. -/
def collapseWsAux : Bool → List Char → List Char
  | _, [] => []
  | prev, c :: rest =>
    if pyIsSpace c then
      if prev then collapseWsAux true rest
      else ' ' :: collapseWsAux true rest
    else c :: collapseWsAux false rest

/-- `hub.utils.clean_ws`: `re.sub(r"\s+", " ", s).strip()`. -/
def clean_ws (s : List Char) : List Char :=
  pyStrip (collapseWsAux false s)

/-- Python `str.replace(a, b)` for single characters. -/
def replaceChar (a b : Char) (s : List Char) : List Char :=
  s.map fun c => if c = a then b else c

/-- ASCII decimal digit (regex `\d`; also Python `int()`-convertible). -/
def isDig (c : Char) : Bool := '0' ≤ c && c ≤ '9'

/-- Python `str.isdigit` restricted to the code points this development
uses: the ASCII decimals (category Nd) and the superscript digits
U+00B9/U+00B2/U+00B3 (category No), which `str.isdigit` accepts although
`int()` rejects them. -/
def pyIsDigit (c : Char) : Bool :=
  isDig c || c = '¹' || c = '²' || c = '³'

def digitVal (c : Char) : Nat := c.toNat - '0'.toNat

/-- Value of an ASCII-decimal digit string. -/
def natOfDigits (s : List Char) : Nat :=
  s.foldl (fun acc c => 10 * acc + digitVal c) 0

/-- Python `int(s)` on the strings reached in this code base: optional
sign followed by ASCII decimal digits (numeric underscores and
non-ASCII decimal digits are not modelled); anything else raises
`ValueError`, modelled as `none`. -/
def pyIntOfStr (s : List Char) : Option Int :=
  let t := pyStrip s
  match t with
  | '-' :: ds => if ds ≠ [] && ds.all isDig then some (-(natOfDigits ds : Int)) else none
  | '+' :: ds => if ds ≠ [] && ds.all isDig then some (natOfDigits ds : Int) else none
  | ds => if ds ≠ [] && ds.all isDig then some (natOfDigits ds : Int) else none

/-- Split a list on every occurrence of the character `c`
(Python `re`-style fixed separator; used to model `(\d+)/(\d+)/(\d+)`
style decompositions). -/
def splitOnChar (c : Char) (s : List Char) : List (List Char) :=
  match s with
  | [] => [[]]
  | a :: rest =>
    let r := splitOnChar c rest
    if a = c then [] :: r
    else match r with
      | [] => [[a]]
      | h :: t => (a :: h) :: t

/-- A Python `datetime.date`. -/
structure PyDate where
  year : Nat
  month : Nat
  day : Nat
  deriving Repr, DecidableEq

/-- Gregorian leap year (as in `datetime`). -/
def isLeap (y : Nat) : Bool :=
  (y % 4 = 0 && y % 100 ≠ 0) || y % 400 = 0

def daysInMonth (y m : Nat) : Nat :=
  if m = 2 then (if isLeap y then 29 else 28)
  else if m = 4 || m = 6 || m = 9 || m = 11 then 30
  else 31

/-- `datetime.date(y, m, d)`: `some` date, or `none` when the
constructor would raise `ValueError`. -/
def pyDate (y m d : Nat) : Option PyDate :=
  if 1 ≤ y && y ≤ 9999 && 1 ≤ m && m ≤ 12 && 1 ≤ d && d ≤ daysInMonth y m then
    some ⟨y, m, d⟩
  else none

/-- Shape test for `^\d{2,3}$`. -/
def isYearPart (p : List Char) : Bool :=
  (p.length = 2 || p.length = 3) && p.all isDig

/-- Shape test for `^\d{1,2}$`. -/
def isMdPart (p : List Char) : Bool :=
  (p.length = 1 || p.length = 2) && p.all isDig

/-- Exactly-three-piece view of a split (the shape produced by a
successful `^(...)/(...)/(...)$` match). -/
def threeParts : List (List Char) → Option (List Char × List Char × List Char)
  | [a, b, c] => some (a, b, c)
  | _ => none

/-- `hub.utils.parse_roc_date`: cleans whitespace, maps `-` to `/`,
then matches `^(\d{2,3})/(\d{1,2})/(\d{1,2})$` or, on a slash-free
string, `^(\d{2,3})(\d{2})(\d{2})$` (the digit-run regex
deterministically splits a 6-character digit string 2+2+2 and a
7-character one 3+2+2; no other all-digit length matches, and a string
containing `/` can never match it), adds 1911 to the first component and
calls `datetime.date`, whose `ValueError` on an invalid calendar date is
NOT caught here and propagates (`PyResult.exn`). -/
def parse_roc_date (s : List Char) : PyResult (Option PyDate) :=
  let t := replaceChar '-' '/' (clean_ws s)
  if t = [] then .ok none
  else
    match threeParts (splitOnChar '/' t) with
    | some (a, b, c) =>
      if isYearPart a && isMdPart b && isMdPart c then
        match pyDate (natOfDigits a + 1911) (natOfDigits b) (natOfDigits c) with
        | some d => .ok (some d)
        | none => .exn
      else .ok none
    | none =>
      if t.all isDig && t.length = 7 then
        match pyDate (natOfDigits (t.take 3) + 1911)
            (natOfDigits ((t.drop 3).take 2)) (natOfDigits (t.drop 5)) with
        | some d => .ok (some d)
        | none => .exn
      else if t.all isDig && t.length = 6 then
        match pyDate (natOfDigits (t.take 2) + 1911)
            (natOfDigits ((t.drop 2).take 2)) (natOfDigits (t.drop 4)) with
        | some d => .ok (some d)
        | none => .exn
      else .ok none

/-- `parse_roc_date` from `import_urban_renewal_raw_csv.py`: strips the
string, matches only `^(\d{2,3})/(\d{1,2})/(\d{1,2})$`, adds 1911 to the
year and builds the date inside `try/except`, so an invalid calendar
date yields `None` instead of raising. -/
def csv_parse_roc_date (s : List Char) : Option PyDate :=
  let t := pyStrip s
  if t = [] then none
  else
    match threeParts (splitOnChar '/' t) with
    | some (a, b, c) =>
      if isYearPart a && isMdPart b && isMdPart c then
        pyDate (natOfDigits a + 1911) (natOfDigits b) (natOfDigits c)
      else none
    | none => none

/-- Decimal-digit padding for Python `f"{b:04d}"` (b ≥ 0). -/
def pad4 (b : Nat) : List Char :=
  let ds := (Nat.toDigits 10 b)
  (List.replicate (4 - ds.length) '0') ++ ds

/-- Decimal rendering of a natural number, `f"{a}"`. -/
def natRepr (a : Nat) : List Char := Nat.toDigits 10 a

/-- `hub.utils.norm_parcel_no`: clean whitespace, normalize the unicode
dashes to `-`; empty input gives `""`; a string matching
`^(\d+)(?:-(\d+))?$` is rebuilt as `f"{int(a)}-{int(b or 0):04d}"`; any
other string is returned unchanged. -/
def norm_parcel_no (s : List Char) : List Char :=
  let t := replaceChar '–' '-' (replaceChar '—' '-' (replaceChar '－' '-' (clean_ws s)))
  if t = [] then []
  else
    match splitOnChar '-' t with
    | [a] =>
      if a ≠ [] && a.all isDig then
        natRepr (natOfDigits a) ++ '-' :: pad4 0
      else t
    | [a, b] =>
      if a ≠ [] && a.all isDig && b ≠ [] && b.all isDig then
        natRepr (natOfDigits a) ++ '-' :: pad4 (natOfDigits b)
      else t
    | _ => t

/-- Character class `[^\s,]` used by the land-text patterns. -/
def landCls (c : Char) : Bool := !(pyIsSpace c) && c ≠ ','

def isOpenB (c : Char) : Bool := c = '（' || c = '('
def isCloseB (c : Char) : Bool := c = '）' || c = ')'

/-- Fuel-indexed worker for `stripBrackets`; the fuel only serves
structural recursion and is never exhausted when it starts at the list
length (each step drops at least one character). -/
def stripBracketsFuel : Nat → List Char → List Char
  | _, [] => []
  | 0, l => l
  | fuel + 1, c :: rest =>
    if isOpenB c then
      match rest.findIdx? isCloseB with
      | some k => ' ' :: stripBracketsFuel fuel (rest.drop (k + 1))
      | none => c :: stripBracketsFuel fuel rest
    else c :: stripBracketsFuel fuel rest

/-- `re.sub(r"[（(].*?[）)]", " ", t)`: each opening bracket together
with everything up to the nearest closing bracket becomes one space; an
opening bracket with no later closing bracket is left in place (the
pattern cannot match there and the scan moves on by one character). -/
def stripBrackets (l : List Char) : List Char :=
  stripBracketsFuel l.length l

/-- Does `pat = [^\s,]{g}` followed by the literal `lit` match inside
`t` at offset `i` with gap width `g`? -/
def gapMatchAt (lit t : List Char) (i g : Nat) : Bool :=
  decide (i + g + lit.length ≤ t.length) &&
  ((t.drop i).take g).all landCls &&
  ((t.drop (i + g)).take lit.length == lit)

/-- `re.search(r"([^\s,]+?LIT)", t)`: leftmost match start, then lazily
smallest gap; the captured group is gap ++ literal. -/
def reSearchClassLit (lit t : List Char) : Option (List Char) :=
  (List.range t.length).findSome? fun i =>
    (List.range t.length).findSome? fun g' =>
      let g := g' + 1
      if gapMatchAt lit t i g then some ((t.drop i).take (g + lit.length)) else none

/-- One position of `re.search(r"LIT[:：]\s*([^\s,]+)", t)`: the literal
at offset `i`, a colon, greedily skipped whitespace, then a non-empty
greedy run of `[^\s,]` as the captured group. -/
def colonCaptureAt (lit t : List Char) (i : Nat) : Option (List Char) :=
  if ((t.drop i).take lit.length) == lit then
    match t.drop (i + lit.length) with
    | c :: _ =>
      if c = ':' || c = '：' then
        let cap := ((t.drop (i + lit.length + 1)).dropWhile pyIsSpace).takeWhile landCls
        if cap ≠ [] then some cap else none
      else none
    | [] => none
  else none

/-- `re.search(r"LIT[:：]\s*([^\s,]+)", t)`: leftmost matching start. -/
def reSearchColon (lit t : List Char) : Option (List Char) :=
  (List.range t.length).findSome? (colonCaptureAt lit t)

/-- First match of `re.findall(r"\d+(?:-\d+)?", t)`: the leftmost digit
run, greedily extended by `-digits` when present. -/
def firstNumTokenFrom : List Char → Option (List Char)
  | [] => none
  | c :: rest =>
    if isDig c then
      let run := (c :: rest).takeWhile isDig
      let after := (c :: rest).dropWhile isDig
      match after with
      | '-' :: d :: _ =>
        if isDig d then some (run ++ '-' :: (after.drop 1).takeWhile isDig)
        else some run
      | _ => some run
    else firstNumTokenFrom rest

/-- `hub.utils.parse_land_text`: clean the text, normalize punctuation,
strip bracketed notes, then extract (section, subsection, parcel):
section = first `([^\s,]+?段)` match (else the `地段[:：]` form),
subsection = first `([^\s,]+?小段)` match (else the `小段[:：]` form),
parcel = first `\d+(?:-\d+)?` run normalized by `norm_parcel_no`. -/
def parse_land_text (s : List Char) : List Char × List Char × List Char :=
  let t0 := clean_ws s
  if t0 = [] then ([], [], [])
  else
    let t1 := replaceChar '．' '.' (replaceChar '、' ',' (replaceChar '，' ',' t0))
    let t := clean_ws (stripBrackets t1)
    let secA := (reSearchClassLit ['段'] t).getD []
    let subA := (reSearchClassLit ['小', '段'] t).getD []
    let sec := if secA = [] then (reSearchColon ['地', '段'] t).getD [] else secA
    let sub := if subA = [] then (reSearchColon ['小', '段'] t).getD [] else subA
    let parcel := match firstNumTokenFrom t with
      | some tok => norm_parcel_no tok
      | none => []
    (sec, sub, parcel)

/-- `parse_land_text` on Lean `String`s. -/
def parseLandTextS (s : String) : String × String × String :=
  let r := parse_land_text s.toList
  (r.1.asString, r.2.1.asString, r.2.2.asString)

/-! ### Decimal model

Python `Decimal` values are modelled as exact rationals.  The special
values (`NaN`, `Infinity`) and numeric underscores are outside the
modelled grammar; intermediate 28-significant-digit context rounding of
`Decimal` division is modelled as exact division (only the final
`quantize` precision check is kept). -/

/-- Parse the exponent part after `e`/`E` of a decimal numeric string. -/
def parseSignedDigits (s : List Char) : Option Int :=
  match s with
  | '-' :: ds => if ds ≠ [] && ds.all isDig then some (-(natOfDigits ds : Int)) else none
  | '+' :: ds => if ds ≠ [] && ds.all isDig then some (natOfDigits ds : Int) else none
  | ds => if ds ≠ [] && ds.all isDig then some (natOfDigits ds : Int) else none

/-- Parse an unsigned decimal mantissa `digits`, `digits.`, `digits.digits`
or `.digits`, returning numerator and fractional length. -/
def parseMantissa (s : List Char) : Option (Nat × Nat) :=
  match splitOnChar '.' s with
  | [a] => if a ≠ [] && a.all isDig then some (natOfDigits a, 0) else none
  | [a, b] =>
    if (a ≠ [] || b ≠ []) && a.all isDig && b.all isDig then
      some (natOfDigits (a ++ b), b.length)
    else none
  | _ => none

/-- A Python `Decimal` value: signed coefficient and decimal scale, the
value being `num / 10 ^ scale` (`scale` is the negated `Decimal`
exponent, so `Decimal("25.4")` is `⟨254, 1⟩` and `Decimal("35.00")` is
`⟨3500, 2⟩`). -/
structure Dec where
  num : Int
  scale : Int
  deriving Repr, DecidableEq

/-- `Decimal(s)` on a numeric string: optional surrounding whitespace,
optional sign, mantissa, optional exponent; `none` models
`InvalidOperation`. -/
def pyDecimal (s : List Char) : Option Dec :=
  let t := pyStrip s
  let (sgn, t) : Int × List Char :=
    match t with
    | '-' :: r => (-1, r)
    | '+' :: r => (1, r)
    | r => (1, r)
  let mant := t.takeWhile (fun c => c ≠ 'e' && c ≠ 'E')
  let rest := t.dropWhile (fun c => c ≠ 'e' && c ≠ 'E')
  match parseMantissa mant with
  | none => none
  | some (num, fracLen) =>
    match rest with
    | [] => some ⟨sgn * num, (fracLen : Int)⟩
    | _ :: ex =>
      match parseSignedDigits ex with
      | none => none
      | some e => some ⟨sgn * num, (fracLen : Int) - e⟩

/-- `import_permit_xml.to_decimal`: clean whitespace, empty gives `None`,
otherwise `Decimal(v)` with every exception caught to `None`. -/
def to_decimal (v : List Char) : Option Dec :=
  let v := clean_ws v
  if v = [] then none else pyDecimal v

/-- `int(Decimal(...))`: truncation toward zero of `num / 10 ^ scale`. -/
def Dec.toIntTrunc (d : Dec) : Int :=
  if d.scale ≤ 0 then d.num * 10 ^ (-d.scale).toNat
  else d.num.tdiv (10 ^ d.scale.toNat)

/-- `import_permit_xml.to_int`: `int(Decimal(v))` (truncation toward
zero), every exception caught to `None`. -/
def to_int (v : List Char) : Option Int :=
  let v := clean_ws v
  if v = [] then none
  else match pyDecimal v with
    | none => none
    | some q => some q.toIntTrunc

/-- `import_urban_renewal_raw_csv.to_decimal`: strip, empty gives `None`,
remove `,` `㎡` `％` `%`, then `Decimal` with exceptions caught. -/
def csv_to_decimal (s : List Char) : Option Dec :=
  let s := pyStrip s
  if s = [] then none
  else pyDecimal (s.filter fun c => c ≠ ',' && c ≠ '㎡' && c ≠ '％' && c ≠ '%')

/-- Greedy `\d+(?:\.\d+)?` starting at the head of `l` (head is a digit). -/
def grabNum (l : List Char) : List Char :=
  let run := l.takeWhile isDig
  let after := l.dropWhile isDig
  match after with
  | '.' :: d :: _ =>
    if isDig d then run ++ '.' :: (after.drop 1).takeWhile isDig else run
  | _ => run

/-- Leftmost match of `[-+]?\d+(?:\.\d+)?` (regex `_DEC_RE.search`). -/
def decSearchFrom : List Char → Option (List Char)
  | [] => none
  | c :: rest =>
    if c = '-' || c = '+' then
      match rest with
      | d :: _ => if isDig d then some (c :: grabNum rest) else decSearchFrom rest
      | [] => none
    else if isDig c then some (grabNum (c :: rest))
    else decSearchFrom rest

/-- `hub.models_use_permit.parse_decimal_maybe`: falsy input gives
`None`; otherwise the first `[-+]?\d+(?:\.\d+)?` run of the stripped
string is parsed as a `Decimal` (`InvalidOperation` caught to `None`). -/
def parse_decimal_maybe (s : List Char) : Option Dec :=
  if s = [] then none
  else match decSearchFrom (pyStrip s) with
    | none => none
    | some m => pyDecimal m

/-! ### Column realignment parser (`import_urban_renewal_raw_csv.py`) -/

/-- `PING_SQM = Decimal("3.305785")`. -/
def PING_SQM : Dec := ⟨3305785, 6⟩

/-- `is_int` from the CSV importer: strip, non-empty and `str.isdigit`. -/
def cell_is_int (s : List Char) : Bool :=
  let s := pyStrip s
  s ≠ [] && s.all pyIsDigit

/-- Python `str.split()` with no arguments: split on whitespace runs,
dropping empty pieces. -/
def pySplitWs (s : List Char) : List (List Char) :=
  ((splitOnChar ' ' (collapseWsAux true s))).filter (· ≠ [])

/-- Python `str.replace(a, "", 1)`: remove the first occurrence of `a`. -/
def removeFirst (a : Char) : List Char → List Char
  | [] => []
  | c :: rest => if c = a then rest else c :: removeFirst a rest

/-- `n / d` rounded to the nearest integer with banker's rounding
(`ROUND_HALF_EVEN`, the default `Decimal` context rounding); `d > 0`. -/
def divRoundHalfEven (n d : Int) : Int :=
  let q := n.fdiv d
  let r := n - q * d
  if 2 * r < d then q
  else if 2 * r > d then q + 1
  else if q % 2 = 0 then q else q + 1

/-- `(site_area_sqm / PING_SQM).quantize(Decimal("0.01"))` inside
`try/except`: the quotient is rounded half-even to two decimal places
(the division itself is modelled exactly instead of through the
28-significant-digit context), and `InvalidOperation` — a quantize
coefficient longer than the 28-digit precision — is caught to `None`. -/
def sitePing (a : Dec) : Option Dec :=
  let n : Int := a.num * 100 * 10 ^ 6 *
    (if a.scale < 0 then 10 ^ (-a.scale).toNat else 1)
  let d : Int := PING_SQM.num *
    (if 0 ≤ a.scale then 10 ^ a.scale.toNat else 1)
  let r := divRoundHalfEven n d
  if r.natAbs < 10 ^ 28 then some ⟨r, 2⟩ else none

/-- `" ".join(pieces)`. -/
def joinSp : List (List Char) → List Char
  | [] => []
  | [p] => p
  | p :: rest => p ++ ' ' :: joinSp rest

/-- One parsed urban-renewal case row (the dict built by
`extract_case_row`). -/
structure CaseRec where
  case_no : Int
  district : List Char
  approved_date : Option PyDate
  site_area_sqm : Option Dec
  site_area_ping : Option Dec
  address : List Char
  land_text : List Char
  note : List Char
  total_bonus_pct : Option Dec
  raw_cols : List (List Char)
  deriving Repr, DecidableEq

/-- Steps 2–7 of `extract_case_row`, run after the case-row test and
`int(cols[0])` succeeded (everything below is wrapped in `try/except`
in the source or is total). -/
def buildCaseRec (cols : List (List Char)) (caseNo : Int) : CaseRec :=
  -- 2) first ROC-date cell with index in [2, min(len, 12))
  let dateHit : Option (Nat × PyDate) :=
    (List.range' 2 (min cols.length 12 - 2)).findSome? fun idx =>
      match csv_parse_roc_date (cols.getD idx []) with
      | some d => some (idx, d)
      | none => none
  -- 3) district / site area from cols[1]
  let distArea : List Char × Option Dec :=
    if cols.length ≥ 2 then
      match pySplitWs (cols.getD 1 []) with
      | [] => ([], none)
      | p0 :: prest =>
        if (removeFirst '.' p0) ≠ [] && (removeFirst '.' p0).all pyIsDigit then
          (pyStrip (prest.foldr (· ++ ·) []), csv_to_decimal p0)
        else (pyStrip (cols.getD 1 []), none)
    else ([], none)
  let district := distArea.1
  let site_area_sqm := distArea.2
  -- 4) address text between the area cell and the date anchor
  let addr_text :=
    match dateHit with
    | some (dIdx, _) =>
      pyStrip (joinSp (((cols.drop 2).take (dIdx - 2)).filter (· ≠ [])))
    | none => pyStrip (joinSp (((cols.drop 2).take 4).filter (· ≠ [])))
  -- 5) total bonus from the 4th-from-last cell
  let total_bonus :=
    if cols.length ≥ 4 then csv_to_decimal (cols.getD (cols.length - 4) [])
    else none
  -- 6) note: short non-numeric, non-date cell shortly after the date
  let note :=
    match dateHit with
    | some (dIdx, _) =>
      match ((cols.drop (dIdx + 1)).take 3).find? (fun x =>
          x ≠ [] && !(let t := removeFirst '.' x; t ≠ [] && t.all pyIsDigit) &&
          (csv_parse_roc_date x).isNone && x.length ≤ 12) with
      | some x => x
      | none => []
    | none => []
  -- 7) ping conversion
  let site_ping :=
    match site_area_sqm with
    | some a => sitePing a
    | none => none
  { case_no := caseNo
    district := district
    approved_date := dateHit.map Prod.snd
    site_area_sqm := site_area_sqm
    site_area_ping := site_ping
    address := addr_text
    land_text := []
    note := note
    total_bonus_pct := total_bonus
    raw_cols := cols }

/-- `extract_case_row`: strip every cell; a row whose first cell is not
a non-empty `isdigit` string is not a record (`None`); `int(cols[0])`
can raise `ValueError` on a non-decimal digit string; otherwise the
record dict is built. -/
def extract_case_row (cols0 : List (List Char)) : PyResult (Option CaseRec) :=
  let cols := cols0.map pyStrip
  match cols with
  | [] => .ok none
  | c0 :: _ =>
    if !cell_is_int c0 then .ok none
    else match pyIntOfStr c0 with
      | none => .exn
      | some caseNo => .ok (some (buildCaseRec cols caseNo))

/-- `extract_case_row` over Lean `String` cells. -/
def extractCaseRowS (cells : List String) : PyResult (Option CaseRec) :=
  extract_case_row (cells.map String.toList)

/-! ### XML elements and the building-permit importer
(`import_permit_xml.py`) -/

/-- An `xml.etree` element: tag, text (Python `None` text is modelled as
the empty string, exactly how `(t or "")` reads it), attributes and
child elements in document order.  The same shape serves as the
JSON-able tree built by `_element_to_dict`. -/
inductive XmlElem where
  | mk (tag : String) (text : List Char) (attrs : List (String × List Char))
       (children : List XmlElem)

def XmlElem.tag : XmlElem → String | .mk t _ _ _ => t
def XmlElem.text : XmlElem → List Char | .mk _ t _ _ => t
def XmlElem.attrs : XmlElem → List (String × List Char) | .mk _ _ a _ => a
def XmlElem.children : XmlElem → List XmlElem | .mk _ _ _ c => c

/-- `_child(parent, tag)`: first child with the tag, in document order. -/
def childTag (el : XmlElem) (t : String) : Option XmlElem :=
  el.children.find? (fun c => c.tag == t)

/-- `_children(parent, tag)`: every child with the tag, in order. -/
def childrenTag (el : XmlElem) (t : String) : List XmlElem :=
  el.children.filter (fun c => c.tag == t)

/-- `_txt` from `import_permit_xml`: `""` for a missing element, else
`clean_ws(el.text or "")`. -/
def txtP : Option XmlElem → List Char
  | none => []
  | some el => clean_ws el.text

mutual

/-- `_element_to_dict`: tag, stripped text, attrs, recursively converted
children. -/
def elementToDict : XmlElem → XmlElem
  | .mk tag text attrs children =>
    .mk tag (pyStrip text) attrs (elementToDictList children)

/-- `_element_to_dict` mapped over a child list. -/
def elementToDictList : List XmlElem → List XmlElem
  | [] => []
  | e :: es => elementToDict e :: elementToDictList es

end

/-- Collect the non-blank `_txt` of every `inner`-tagged child below the
first `outer`-tagged child (the multi-value list pattern of both XML
importers). -/
def collectListP (el : XmlElem) (outer inner : String) : List (List Char) :=
  match childTag el outer with
  | none => []
  | some w => (childrenTag w inner).filterMap fun a =>
      let t := txtP (some a)
      if t = [] then none else some t

/-- `clip_to_model` truncation primitive: `s[:n]` applied only when
`len(s) > n`. -/
def pyClip (s : List Char) (n : Nat) : List Char :=
  if s.length > n then s.take n else s

/-- The `data` dict assembled for `BuildingPermit` (lines 251–281 of
`import_permit_xml.py`); `raw` is the `_element_to_dict` tree. -/
structure PermitData where
  permit_year : List Char
  issue_date : Option PyDate
  build_type : List Char
  structure_ : List Char
  zoning : List Char
  building_area_sqm : Option Dec
  arcade_site_area_sqm : Option Dec
  other_site_area_sqm : Option Dec
  building_count : Option Int
  block_count : Option Int
  floors_above : Option Int
  floors_below : Option Int
  unit_count : Option Int
  build_deadline : List Char
  project_cost : Option Int
  owner : List Char
  designer : List Char
  supervisor : List Char
  applicable_law : List Char
  building_info : List Char
  location : List Char
  land_text : List Char
  section_ : List Char
  subsection : List Char
  parcel_no : List Char
  summary : List Char
  misc_works : List Char
  notes : List Char
  raw : XmlElem

/-- `clip_to_model(BuildingPermit, data)`: truncate exactly the
`CharField` keys present in the dict to their `max_length`
(`models.py`); `TextField`s, dates, numerics and the JSON `raw` are
untouched, and `permit_no` is not a key of the dict. -/
def clip_BuildingPermit (d : PermitData) : PermitData :=
  { d with
    permit_year := pyClip d.permit_year 10
    build_type := pyClip d.build_type 32
    structure_ := pyClip d.structure_ 128
    zoning := pyClip d.zoning 128
    build_deadline := pyClip d.build_deadline 64
    owner := pyClip d.owner 256
    designer := pyClip d.designer 256
    supervisor := pyClip d.supervisor 256
    location := pyClip d.location 256
    section_ := pyClip d.section_ 64
    subsection := pyClip d.subsection 64
    parcel_no := pyClip d.parcel_no 32 }

/-- `BuildingPermit.permit_no` is `CharField(max_length=64)`. -/
def permit_no_max_length : Nat := 64

/-- A record as parsed from one `<Data>` element, before persistence. -/
structure ParsedPermit where
  permit_no : List Char
  data : PermitData
  addresses : List (List Char)
  parcels : List (List Char)
  floors : List (List Char)
  misc_items : List (List Char)
  note_items : List (List Char)

/-- Outcome of the per-record extraction phase: missing natural key,
uncaught exception (`parse_roc_date` raising on an invalid calendar
date), or a parsed record. -/
inductive ExtractOut where
  | skip
  | exn
  | ok (r : ParsedPermit)

/-- Field extraction for one `<Data>` element (lines 152–242 of
`import_permit_xml.py`). -/
def extractPermit (elem : XmlElem) : ExtractOut :=
  let permit_no := txtP (childTag elem "執照號碼")
  if permit_no = [] then .skip
  else
    match parse_roc_date (txtP (childTag elem "發照日期")) with
    | .exn => .exn
    | .ok issue_date =>
      let land_text := txtP (childTag elem "地段地號")
      let land := parse_land_text land_text
      let info :=
        match childTag elem "建物資訊" with
        | none => (none, none, none, none, none)
        | some i =>
          (to_int (txtP (childTag i "棟數")), to_int (txtP (childTag i "幢數")),
           to_int (txtP (childTag i "地上層數")), to_int (txtP (childTag i "地下層數")),
           to_int (txtP (childTag i "戶數")))
      .ok
        { permit_no := permit_no
          data :=
            { permit_year := txtP (childTag elem "執照年度")
              issue_date := issue_date
              build_type := txtP (childTag elem "建造類別")
              structure_ := txtP (childTag elem "構造種類")
              zoning := txtP (childTag elem "使用分區")
              building_area_sqm := to_decimal (txtP (childTag elem "建築面積"))
              arcade_site_area_sqm := to_decimal (txtP (childTag elem "騎樓基地面積"))
              other_site_area_sqm := to_decimal (txtP (childTag elem "其他基地面積"))
              building_count := info.1
              block_count := info.2.1
              floors_above := info.2.2.1
              floors_below := info.2.2.2.1
              unit_count := info.2.2.2.2
              build_deadline := txtP (childTag elem "建築期限")
              project_cost := to_int (txtP (childTag elem "工程金額"))
              owner := txtP (childTag elem "起造人")
              designer := txtP (childTag elem "設計人")
              supervisor := txtP (childTag elem "監造人")
              applicable_law := txtP (childTag elem "適用法令概要")
              building_info := txtP (childTag elem "建物資訊")
              location := txtP (childTag elem "建築地點")
              land_text := land_text
              section_ := land.1
              subsection := land.2.1
              parcel_no := land.2.2
              summary := txtP (childTag elem "建築概要")
              misc_works := txtP (childTag elem "雜項工作物")
              notes := txtP (childTag elem "注意事項")
              raw := elementToDict elem }
          addresses := collectListP elem "建築地點" "地址"
          parcels := collectListP elem "地段地號" "地段號"
          floors := collectListP elem "建築概要" "樓層"
          misc_items := collectListP elem "雜項工作物" "說明"
          note_items := collectListP elem "注意事項" "備註說明" }

/-! ### Store and run model for the building-permit importer -/

/-- Run counters (`Stats` dataclass). -/
structure Stats where
  processed : Nat := 0
  created : Nat := 0
  updated : Nat := 0
  skipped : Nat := 0
  deriving Repr, DecidableEq

/-- Recognized command options. -/
structure Opts where
  clear : Bool := false
  dry_run : Bool := false
  limit : Nat := 0
  upsert : Bool := false
  deriving Repr, DecidableEq

/-- A child-collection row: 1-based sequence number and text payload. -/
structure ChildRow where
  seq : Nat
  text : List Char

/-- One stored `BuildingPermit` row together with its exclusively-owned
child rows (`CASCADE` foreign keys make the nesting faithful: children
live and die with the parent, and delete-and-rebuild replaces the
parent's child set wholesale). -/
structure PermitRow where
  permit_no : List Char
  data : PermitData
  addresses : List ChildRow
  parcels : List ChildRow
  floors : List ChildRow
  misc_items : List ChildRow
  note_items : List ChildRow

/-- The `BuildingPermit` table: rows keyed by the unique `permit_no`. -/
abbrev PermitDb := List (List Char × PermitRow)

/-- First value stored under key `k`. -/
def alLookup {κ α : Type} [BEq κ] (k : κ) (l : List (κ × α)) : Option α :=
  (l.find? (fun p => p.1 == k)).map (·.2)

/-- Keyed write: replace the value under an existing key in place
(first occurrence; the key column is unique), or append a fresh row at
the end (`update_or_create` net effect on the table). -/
def alSet {κ α : Type} [BEq κ] (k : κ) (v : α) : List (κ × α) → List (κ × α)
  | [] => [(k, v)]
  | p :: rest => if p.1 == k then (k, v) :: rest else p :: alSet k v rest

/-- 1-based sequence numbering of a child list with optional
`clip_to_model` truncation of the text column. -/
def seqRows (clip? : Option Nat) (ts : List (List Char)) : List ChildRow :=
  ts.enum.map fun p =>
    ⟨p.1 + 1, match clip? with | some n => pyClip p.2 n | none => p.2⟩

/-- The row a parsed record persists to: clipped parent `data`
(`clip_to_model(BuildingPermit, ...)`), the natural key written as-is,
and the rebuilt child collections — `address_text` clipped to 512 and
`parcel_text` to 256 via `clip_to_model`, while the `TextField` child
columns (`floor_text`, `misc_text`, `note_text`) are stored unclipped. -/
def permitRowOf (r : ParsedPermit) : PermitRow :=
  { permit_no := r.permit_no
    data := clip_BuildingPermit r.data
    addresses := seqRows (some 512) r.addresses
    parcels := seqRows (some 256) r.parcels
    floors := seqRows none r.floors
    misc_items := seqRows none r.misc_items
    note_items := seqRows none r.note_items }

/-- The per-record `transaction.atomic` block (lines 250–337): upsert via
`update_or_create` keyed on `permit_no`, or plain `create` which raises
`IntegrityError` on a duplicate of the unique `permit_no`; then the
child collections are deleted and re-created.  The returned `Bool` is
the `created` flag; `Except.error` models the exception leaving the
block, with every write of the block rolled back. -/
def persistPermit (upsert : Bool) (db : PermitDb) (r : ParsedPermit) :
    Except Unit (PermitDb × Bool) :=
  let row := permitRowOf r
  match alLookup r.permit_no db with
  | some _ =>
    if upsert then .ok (alSet r.permit_no row db, false)
    else .error ()
  | none => .ok (db ++ [(r.permit_no, row)], true)

/-- Outcome of one loop iteration: go on with the next element, or
propagate an uncaught exception (which aborts the whole command). -/
inductive Step (δ : Type) where
  | next (s : Stats) (db : δ)
  | abort (s : Stats) (db : δ)

/-- The per-`<Data>` body of the import loop, entered after the
`processed` increment and the limit check: extraction (which may skip on
a missing key or raise), the dry-run shortcut, then the atomic
persistence block.  A persistence exception rolls the record's
transaction back — `db` is returned unchanged — and aborts. -/
def permitStep (o : Opts) (s : Stats) (db : PermitDb) (el : XmlElem) :
    Step PermitDb :=
  match extractPermit el with
  | .skip => .next { s with skipped := s.skipped + 1 } db
  | .exn => .abort s db
  | .ok r =>
    if o.dry_run then .next { s with created := s.created + 1 } db
    else
      match persistPermit o.upsert db r with
      | .error _ => .abort s db
      | .ok (db', created) =>
        if created then .next { s with created := s.created + 1 } db'
        else .next { s with updated := s.updated + 1 } db'

/-- Final state of a run: completed, or terminated by an uncaught
exception (the partial `db` reflects every already-committed record). -/
inductive RunOut (δ : Type) where
  | done (s : Stats) (db : δ)
  | raised (s : Stats) (db : δ)

def RunOut.stats {δ : Type} : RunOut δ → Stats
  | .done s _ => s
  | .raised s _ => s

def RunOut.db {δ : Type} : RunOut δ → δ
  | .done _ db => db
  | .raised _ db => db

/-- The `iterparse` loop of `Command.handle`: non-`Data` end events are
ignored; `processed` is incremented, then `if limit and
stats.processed > limit: break`, then the record body runs. -/
def runLoop (o : Opts) : Stats → PermitDb → List XmlElem → RunOut PermitDb
  | s, db, [] => .done s db
  | s, db, el :: rest =>
    if el.tag = "Data" then
      let s' := { s with processed := s.processed + 1 }
      if o.limit ≠ 0 && s'.processed > o.limit then .done s' db
      else
        match permitStep o s' db el with
        | .next s'' db' => runLoop o s'' db' rest
        | .abort s'' db' => .raised s'' db'
    else runLoop o s db rest

/-- `Command.handle` for `import_permit_xml`: `--clear` empties the
parent table (children cascade) unless `--dry-run` is set, then the
record loop runs from zeroed counters. -/
def handleImport (o : Opts) (db : PermitDb) (els : List XmlElem) :
    RunOut PermitDb :=
  let db0 := if o.clear && !o.dry_run then [] else db
  runLoop o {} db0 els

/-! ### Use-permit importer (`import_use_permit_xml.py`) -/

/-- `_txt` from `import_use_permit_xml`: `""` for a missing element,
else `(el.text or "").strip()`. -/
def txtU : Option XmlElem → List Char
  | none => []
  | some el => pyStrip el.text

/-- Multi-value collection with the use-permit `_txt`. -/
def collectListU (el : XmlElem) (outer inner : String) : List (List Char) :=
  match childTag el outer with
  | none => []
  | some w => (childrenTag w inner).filterMap fun a =>
      let t := txtU (some a)
      if t = [] then none else some t

/-- The `建物資訊` keys, added to the dict only when the group element
is present. -/
structure UseInfoGroup where
  building_count : Option Int
  block_count : Option Int
  floors_above : Option Int
  floors_below : Option Int
  unit_count : Option Int

/-- The `建物面積` keys, added to the dict only when the group element
is present. -/
structure UseAreaGroup where
  arcade_site_area_sqm : Option Dec
  other_site_area_sqm : Option Dec
  footprint_area_sqm : Option Dec
  legal_open_space_sqm : Option Dec
  refuge_area_above_sqm : Option Dec
  refuge_area_below_sqm : Option Dec

/-- The `data` dict of the use-permit importer; `info`/`area` are
`none` when their keys were never added to the dict. -/
structure UseData where
  permit_year : List Char
  permit_no : List Char
  issue_date_text : List Char
  original_permit_no : List Char
  designer : List Char
  supervisor : List Char
  contractor : List Char
  build_type : List Char
  structure_type : List Char
  zoning : List Char
  building_height_m : Option Dec
  project_cost_text : List Char
  completion_date_text : List Char
  start_date_text : List Char
  law_summary : List Char
  change_summary_text : List Char
  info : Option UseInfoGroup
  area : Option UseAreaGroup
  raw : XmlElem

/-- One record parsed from a use-permit `<Data>` element. -/
structure ParsedUse where
  data : UseData
  addresses : List (List Char)
  parcels : List (List Char)
  floors : List (List Char)
  parkings : List (List Char)
  notes : List (List Char)
  misc_desc : List Char
  change_approvals : List (List Char × List Char)

/-- Local `to_int` of the use-permit importer: plain `int(s)` with
`ValueError` caught to `None`. -/
def use_to_int (s : List Char) : Option Int :=
  let s := pyStrip s
  if s = [] then none else pyIntOfStr s

/-- Field extraction for one use-permit `<Data>` element (lines
99–216); `none` is the missing-key skip. -/
def extractUse (elem : XmlElem) : Option ParsedUse :=
  let permit_year := txtU (childTag elem "執照年度")
  let permit_no := txtU (childTag elem "執照號碼")
  if permit_year = [] || permit_no = [] then none
  else
    some
      { data :=
          { permit_year := permit_year
            permit_no := permit_no
            issue_date_text := txtU (childTag elem "發照日期")
            original_permit_no := txtU (childTag elem "原核發執照")
            designer := txtU (childTag elem "設計人")
            supervisor := txtU (childTag elem "監造人")
            contractor := txtU (childTag elem "承造人")
            build_type := txtU (childTag elem "建造類別")
            structure_type := txtU (childTag elem "構造種類")
            zoning := txtU (childTag elem "使用分區")
            building_height_m := parse_decimal_maybe (txtU (childTag elem "建物高度"))
            project_cost_text := txtU (childTag elem "工程金額")
            completion_date_text := txtU (childTag elem "竣工日期")
            start_date_text := txtU (childTag elem "開工日期")
            law_summary := txtU (childTag elem "適用法令概要")
            change_summary_text := txtU (childTag elem "變更概要")
            info :=
              match childTag elem "建物資訊" with
              | none => none
              | some i => some
                  { building_count := use_to_int (txtU (childTag i "棟數"))
                    block_count := use_to_int (txtU (childTag i "幢數"))
                    floors_above := use_to_int (txtU (childTag i "地上層數"))
                    floors_below := use_to_int (txtU (childTag i "地下層數"))
                    unit_count := use_to_int (txtU (childTag i "戶數")) }
            area :=
              match childTag elem "建物面積" with
              | none => none
              | some a => some
                  { arcade_site_area_sqm := parse_decimal_maybe (txtU (childTag a "騎樓基地面積"))
                    other_site_area_sqm := parse_decimal_maybe (txtU (childTag a "其他基地面積"))
                    footprint_area_sqm := parse_decimal_maybe (txtU (childTag a "建築面積"))
                    legal_open_space_sqm := parse_decimal_maybe (txtU (childTag a "法定空地面積"))
                    refuge_area_above_sqm := parse_decimal_maybe (txtU (childTag a "地上避難面積"))
                    refuge_area_below_sqm := parse_decimal_maybe (txtU (childTag a "地下避難面積")) }
            raw := elementToDict elem }
        addresses := collectListU elem "建築地點" "地址"
        parcels := collectListU elem "地段地號" "地段號"
        floors := collectListU elem "建築概要" "樓層"
        parkings := collectListU elem "停車空間" "停車空間說明"
        notes := collectListU elem "注意事項" "備註說明"
        misc_desc :=
          match childTag elem "雜項工作物" with
          | none => []
          | some m => txtU (childTag m "說明")
        change_approvals :=
          match childTag elem "變更概要" with
          | none => []
          | some ch => (childrenTag ch "核准文號").filterMap fun ap =>
              let a1 := pyStrip ((alLookup "變使准" ap.attrs).getD [])
              let a2 := pyStrip ((alLookup "變使竣工" ap.attrs).getD [])
              if a1 ≠ [] || a2 ≠ [] then some (a1, a2) else none }

/-- The flattened columns of a stored `BuildingUsePermit` row. -/
structure UseFields where
  permit_year : List Char
  permit_no : List Char
  issue_date_text : List Char
  original_permit_no : List Char
  designer : List Char
  supervisor : List Char
  contractor : List Char
  build_type : List Char
  structure_type : List Char
  zoning : List Char
  building_height_m : Option Dec
  project_cost_text : List Char
  completion_date_text : List Char
  start_date_text : List Char
  law_summary : List Char
  change_summary_text : List Char
  building_count : Option Int
  block_count : Option Int
  floors_above : Option Int
  floors_below : Option Int
  unit_count : Option Int
  arcade_site_area_sqm : Option Dec
  other_site_area_sqm : Option Dec
  footprint_area_sqm : Option Dec
  legal_open_space_sqm : Option Dec
  refuge_area_above_sqm : Option Dec
  refuge_area_below_sqm : Option Dec
  raw : XmlElem

/-- Write the dict onto a row: on `create` absent group keys leave the
columns `NULL`; on the `setattr`-over-`data.keys()` update path, absent
group keys leave the previous column values in place. -/
def applyUseData (d : UseData) (old : Option UseFields) : UseFields :=
  let base : UseFields :=
    match old with
    | some f => f
    | none =>
      { permit_year := [], permit_no := [], issue_date_text := [],
        original_permit_no := [], designer := [], supervisor := [],
        contractor := [], build_type := [], structure_type := [], zoning := [],
        building_height_m := none, project_cost_text := [],
        completion_date_text := [], start_date_text := [], law_summary := [],
        change_summary_text := [], building_count := none, block_count := none,
        floors_above := none, floors_below := none, unit_count := none,
        arcade_site_area_sqm := none, other_site_area_sqm := none,
        footprint_area_sqm := none, legal_open_space_sqm := none,
        refuge_area_above_sqm := none, refuge_area_below_sqm := none,
        raw := d.raw }
  let base :=
    { base with
      permit_year := d.permit_year, permit_no := d.permit_no,
      issue_date_text := d.issue_date_text,
      original_permit_no := d.original_permit_no, designer := d.designer,
      supervisor := d.supervisor, contractor := d.contractor,
      build_type := d.build_type, structure_type := d.structure_type,
      zoning := d.zoning, building_height_m := d.building_height_m,
      project_cost_text := d.project_cost_text,
      completion_date_text := d.completion_date_text,
      start_date_text := d.start_date_text, law_summary := d.law_summary,
      change_summary_text := d.change_summary_text, raw := d.raw }
  let base :=
    match d.info with
    | none => base
    | some i =>
      { base with
        building_count := i.building_count
        block_count := i.block_count
        floors_above := i.floors_above
        floors_below := i.floors_below
        unit_count := i.unit_count }
  match d.area with
  | none => base
  | some a =>
    { base with
      arcade_site_area_sqm := a.arcade_site_area_sqm
      other_site_area_sqm := a.other_site_area_sqm
      footprint_area_sqm := a.footprint_area_sqm
      legal_open_space_sqm := a.legal_open_space_sqm
      refuge_area_above_sqm := a.refuge_area_above_sqm
      refuge_area_below_sqm := a.refuge_area_below_sqm }

/-- A `核准文號` child row. -/
structure ChangeRow where
  seq : Nat
  change_approval_text : List Char
  change_completion_text : List Char

/-- A stored `BuildingUsePermit` row with its owned child rows. -/
structure UseRow where
  fields : UseFields
  addresses : List ChildRow
  parcels : List ChildRow
  floors : List ChildRow
  parkings : List ChildRow
  notes : List ChildRow
  change_approvals : List ChangeRow
  misc_work : Option (List Char)

/-- The `BuildingUsePermit` table keyed by the unique
`(permit_year, permit_no)` pair. -/
abbrev UseDb := List ((List Char × List Char) × UseRow)

/-- Child collections written after the parent write: delete-and-rebuild
with fresh 1-based sequence numbers; the use-permit importer clips
nothing. -/
def useRowOf (flds : UseFields) (p : ParsedUse) : UseRow :=
  { fields := flds
    addresses := seqRows none p.addresses
    parcels := seqRows none p.parcels
    floors := seqRows none p.floors
    parkings := seqRows none p.parkings
    notes := seqRows none p.notes
    change_approvals := p.change_approvals.enum.map fun q =>
      ⟨q.1 + 1, q.2.1, q.2.2⟩
    misc_work := if p.misc_desc ≠ [] then some p.misc_desc else none }

/-- The use-permit `transaction.atomic` block (lines 224–296):
`get_or_create` on `(permit_year, permit_no)` with a `setattr`+`save`
update path under `--upsert`, plain `create` otherwise (raising
`IntegrityError` on a duplicate of the unique pair), then
delete-and-rebuild of all child collections. -/
def persistUse (upsert : Bool) (db : UseDb) (p : ParsedUse) :
    Except Unit (UseDb × Bool) :=
  let key := (p.data.permit_year, p.data.permit_no)
  match alLookup key db with
  | some old =>
    if upsert then
      .ok (alSet key (useRowOf (applyUseData p.data (some old.fields)) p) db, false)
    else .error ()
  | none => .ok (db ++ [(key, useRowOf (applyUseData p.data none) p)], true)

/-- The per-`<Data>` body of the use-permit loop, after the `processed`
increment and limit check. -/
def useStep (o : Opts) (s : Stats) (db : UseDb) (el : XmlElem) : Step UseDb :=
  match extractUse el with
  | none => .next { s with skipped := s.skipped + 1 } db
  | some p =>
    if o.dry_run then .next { s with created := s.created + 1 } db
    else
      match persistUse o.upsert db p with
      | .error _ => .abort s db
      | .ok (db', created) =>
        if created then .next { s with created := s.created + 1 } db'
        else .next { s with updated := s.updated + 1 } db'

/-- The `iterparse` loop of the use-permit `Command.handle`. -/
def runLoopUse (o : Opts) : Stats → UseDb → List XmlElem → RunOut UseDb
  | s, db, [] => .done s db
  | s, db, el :: rest =>
    if el.tag = "Data" then
      let s' := { s with processed := s.processed + 1 }
      if o.limit ≠ 0 && s'.processed > o.limit then .done s' db
      else
        match useStep o s' db el with
        | .next s'' db' => runLoopUse o s'' db' rest
        | .abort s'' db' => .raised s'' db'
    else runLoopUse o s db rest

/-- `Command.handle` for `import_use_permit_xml`. -/
def handleUse (o : Opts) (db : UseDb) (els : List XmlElem) : RunOut UseDb :=
  let db0 := if o.clear && !o.dry_run then [] else db
  runLoopUse o {} db0 els

/-! ### Run model of the urban-renewal CSV importer -/

/-- A stored `UrbanRenewalCase` row (the `defaults` dict of
`update_or_create`, `source` fixed to `"taipei_ur"`). -/
structure UrCaseRow where
  case_no : Int
  district : List Char
  address : List Char
  approved_date : Option PyDate
  site_area_sqm : Option Dec
  site_area_ping : Option Dec
  total_bonus_pct : Option Dec
  raw_cols : List (List Char)
  raw_note : List Char
  raw_land_text : List Char

/-- The `UrbanRenewalCase` table keyed by `(source, case_no)` as used by
`update_or_create(source="taipei_ur", case_no=...)`. -/
abbrev UrDb := List ((String × Int) × UrCaseRow)

/-- The stored row built from one extracted case dict. -/
def urRowOf (item : CaseRec) : UrCaseRow :=
  { case_no := item.case_no
    district := item.district
    address := item.address
    approved_date := item.approved_date
    site_area_sqm := item.site_area_sqm
    site_area_ping := item.site_area_ping
    total_bonus_pct := item.total_bonus_pct
    raw_cols := item.raw_cols
    raw_note := item.note
    raw_land_text := item.land_text }

/-- The row loop of the CSV `Command.handle`: non-case rows are passed
over, `parsed` (held in `Stats.processed`) is incremented and then
checked against the limit, dry-run stops before the write, and
`update_or_create` never raises; `skipped` is never touched.  An
uncaught exception from `extract_case_row` aborts the run. -/
def runCsvLoop (limit : Nat) (dry : Bool) :
    Stats → UrDb → List (List (List Char)) → RunOut UrDb
  | s, db, [] => .done s db
  | s, db, row :: rest =>
    match extract_case_row row with
    | .exn => .raised s db
    | .ok none => runCsvLoop limit dry s db rest
    | .ok (some item) =>
      let s' := { s with processed := s.processed + 1 }
      if limit ≠ 0 && s'.processed > limit then .done s' db
      else if dry then runCsvLoop limit dry s' db rest
      else
        let key := ("taipei_ur", item.case_no)
        match alLookup key db with
        | some _ =>
          runCsvLoop limit dry { s' with updated := s'.updated + 1 }
            (alSet key (urRowOf item) db) rest
        | none =>
          runCsvLoop limit dry { s' with created := s'.created + 1 }
            (db ++ [(key, urRowOf item)]) rest

/-- `Command.handle` of the CSV importer: the first row (header) is
consumed by `next(reader, None)`, then the loop runs. -/
def handleCsv (limit : Nat) (dry : Bool) (db : UrDb)
    (rows : List (List (List Char))) : RunOut UrDb :=
  runCsvLoop limit dry {} db (rows.drop 1)

/-! ### Helper lemmas -/

theorem dropWhile_of_allNot {p : Char → Bool} {s : List Char}
    (h : ∀ c ∈ s, p c = false) : s.dropWhile p = s := by
  cases s with
  | nil => rfl
  | cons a t => simp [List.dropWhile, h a (by simp)]

theorem pyStrip_of_noWs {s : List Char} (h : ∀ c ∈ s, pyIsSpace c = false) :
    pyStrip s = s := by
  unfold pyStrip
  rw [dropWhile_of_allNot h, dropWhile_of_allNot, List.reverse_reverse]
  intro c hc
  exact h c (by simpa using hc)

theorem collapseWsAux_of_noWs {s : List Char}
    (h : ∀ c ∈ s, pyIsSpace c = false) : collapseWsAux false s = s := by
  induction s with
  | nil => rfl
  | cons a t ih =>
    have ha : pyIsSpace a = false := h a (by simp)
    simp only [collapseWsAux, ha, Bool.false_eq_true, if_false]
    rw [ih (fun c hc => h c (List.mem_cons_of_mem a hc))]

theorem clean_ws_of_noWs {s : List Char} (h : ∀ c ∈ s, pyIsSpace c = false) :
    clean_ws s = s := by
  unfold clean_ws
  rw [collapseWsAux_of_noWs h, pyStrip_of_noWs h]

theorem replaceChar_of_notMem {a b : Char} {s : List Char}
    (h : ∀ c ∈ s, c ≠ a) : replaceChar a b s = s := by
  unfold replaceChar
  rw [List.map_congr_left, List.map_id]
  intro c hc
  simp [h c hc]

theorem splitOnChar_of_notMem {c : Char} {A : List Char}
    (h : ∀ x ∈ A, x ≠ c) : splitOnChar c A = [A] := by
  induction A with
  | nil => rfl
  | cons a t ih =>
    have ha : a ≠ c := h a (by simp)
    have ht := ih (fun x hx => h x (List.mem_cons_of_mem a hx))
    simp only [splitOnChar, ht, if_neg ha]

theorem splitOnChar_append {c : Char} {rest : List Char} {A : List Char}
    (h : ∀ x ∈ A, x ≠ c) :
    splitOnChar c (A ++ c :: rest) = A :: splitOnChar c rest := by
  induction A with
  | nil => simp [splitOnChar]
  | cons a t ih =>
    have ha : a ≠ c := h a (by simp)
    have ht := ih (fun x hx => h x (List.mem_cons_of_mem a hx))
    show splitOnChar c (a :: (t ++ c :: rest)) = (a :: t) :: splitOnChar c rest
    simp only [splitOnChar, ht, if_neg ha]

theorem pyDate_eq_some {y m d : Nat} {dt : PyDate}
    (h : pyDate y m d = some dt) : dt.year = y ∧ dt.month = m ∧ dt.day = d := by
  unfold pyDate at h
  split at h
  · cases h; exact ⟨rfl, rfl, rfl⟩
  · cases h

theorem isDig_not_space {c : Char} (h : isDig c = true) : pyIsSpace c = false := by
  simp only [isDig, Bool.and_eq_true, decide_eq_true_eq] at h
  simp only [pyIsSpace, Bool.or_eq_false_iff, decide_eq_false_iff_not]
  refine ⟨⟨⟨⟨⟨?_, ?_⟩, ?_⟩, ?_⟩, ?_⟩, ?_⟩ <;>
    · rintro rfl
      revert h
      decide

theorem isDig_ne_slash {c : Char} (h : isDig c = true) : c ≠ '/' := by
  rintro rfl
  revert h
  decide

theorem isDig_ne_dash {c : Char} (h : isDig c = true) : c ≠ '-' := by
  rintro rfl
  revert h
  decide

/-! ### C6: land-descriptor decomposition on the spec's example -/

/-- C6 counterexample: on `"大安段一小段292"` the sub-section returned
by `parse_land_text` is NOT `"一小段"` (the lazy `([^\s,]+?小段)` search
starts matching at the beginning of the string, so the whole prefix
`"大安段一"` is captured together with the suffix token). -/
theorem C6_counterexample : (parseLandTextS "大安段一小段292").2.1 ≠ "一小段" := by
  decide

/-- C6 (amended): land-descriptor decomposition on `"大安段一小段292"`
returns section `"大安段"`, sub-section `"大安段一小段"` (the section
prefix is included, because the leftmost lazy match of
`([^\s,]+?小段)` begins at the start of the string), and parcel number
`"292"` normalized to `"292-0000"`. -/
theorem C6_parse_land_text :
    parseLandTextS "大安段一小段292" = ("大安段", "大安段一小段", "292-0000") := by
  decide

/-! ### C2: the local-calendar date parsers -/

/-- C2 counterexample: the shared `hub.utils.parse_roc_date` raises an
uncaught `ValueError` on the three-part string `"108/13/1"` (month 13)
instead of returning no value, and the CSV importer's local
`parse_roc_date` returns no value for the digit-run form `"1080319"`
(it only accepts the slash form), while the shared parser accepts it. -/
theorem C2_counterexample :
    parse_roc_date ("108/13/1").toList = .exn ∧
    csv_parse_roc_date ("1080319").toList = none ∧
    parse_roc_date ("1080319").toList = .ok (some ⟨2019, 3, 19⟩) := by
  refine ⟨by decide, by decide, by decide⟩

/-- C2 (amended): for every slash-delimited three-part date string
(2–3 digit year part, 1–2 digit month/day parts) whose parts form a
valid calendar date, both parsers return the date and its year is the
first component plus 1911; whenever the matched parts are NOT a valid
calendar date — in the slash form or in the digit-run form — the shared
`hub.utils` parser raises (`ValueError` propagates: its `datetime.date`
call is not guarded) while the CSV importer's local parser returns no
value (its call is guarded, and it lacks the digit-run pattern
entirely, so every digit-run string gets no value from it); digit-run
strings with valid parts are accepted only by the shared parser; and
non-matching strings return no value from both: the empty string, any
all-digit string whose length is neither 6 nor 7, and any
slash-separated all-digit triple whose parts fail the 2–3/1–2/1–2
digit shapes. -/
theorem C2_parse_roc_date :
    (∀ (A B C : List Char) (dt : PyDate),
        isYearPart A = true → isMdPart B = true → isMdPart C = true →
        pyDate (natOfDigits A + 1911) (natOfDigits B) (natOfDigits C) = some dt →
        parse_roc_date (A ++ '/' :: (B ++ '/' :: C)) = .ok (some dt) ∧
        csv_parse_roc_date (A ++ '/' :: (B ++ '/' :: C)) = some dt ∧
        dt.year = natOfDigits A + 1911) ∧
    (∀ (A B C : List Char),
        isYearPart A = true → isMdPart B = true → isMdPart C = true →
        pyDate (natOfDigits A + 1911) (natOfDigits B) (natOfDigits C) = none →
        parse_roc_date (A ++ '/' :: (B ++ '/' :: C)) = .exn ∧
        csv_parse_roc_date (A ++ '/' :: (B ++ '/' :: C)) = none) ∧
    (∀ (A BC : List Char) (dt : PyDate),
        A.all isDig = true → BC.all isDig = true →
        (A.length = 2 ∨ A.length = 3) → BC.length = 4 →
        pyDate (natOfDigits A + 1911) (natOfDigits (BC.take 2))
          (natOfDigits (BC.drop 2)) = some dt →
        parse_roc_date (A ++ BC) = .ok (some dt) ∧
        csv_parse_roc_date (A ++ BC) = none ∧
        dt.year = natOfDigits A + 1911) ∧
    (∀ (A BC : List Char),
        A.all isDig = true → BC.all isDig = true →
        (A.length = 2 ∨ A.length = 3) → BC.length = 4 →
        pyDate (natOfDigits A + 1911) (natOfDigits (BC.take 2))
          (natOfDigits (BC.drop 2)) = none →
        parse_roc_date (A ++ BC) = .exn ∧
        csv_parse_roc_date (A ++ BC) = none) ∧
    (∀ (A B C : List Char),
        A.all isDig = true → B.all isDig = true → C.all isDig = true →
        (isYearPart A && isMdPart B && isMdPart C) = false →
        parse_roc_date (A ++ '/' :: (B ++ '/' :: C)) = .ok none ∧
        csv_parse_roc_date (A ++ '/' :: (B ++ '/' :: C)) = none) ∧
    (∀ (t : List Char),
        t.all isDig = true → t ≠ [] → t.length ≠ 6 → t.length ≠ 7 →
        parse_roc_date t = .ok none ∧ csv_parse_roc_date t = none) ∧
    parse_roc_date [] = .ok none ∧ csv_parse_roc_date [] = none := by
  have digAll : ∀ {L : List Char}, L.all isDig = true → ∀ c ∈ L, isDig c = true := by
    intro L hL c hc
    exact List.all_eq_true.mp hL c hc
  have mdDig : ∀ {P : List Char}, isMdPart P = true → P.all isDig = true := by
    intro P hP
    simp only [isMdPart, Bool.and_eq_true] at hP
    exact hP.2
  have yDig : ∀ {P : List Char}, isYearPart P = true → P.all isDig = true := by
    intro P hP
    simp only [isYearPart, Bool.and_eq_true] at hP
    exact hP.2
  have slashShape : ∀ (A B C : List Char), A.all isDig = true → B.all isDig = true →
      C.all isDig = true →
      (∀ x ∈ A ++ '/' :: (B ++ '/' :: C), pyIsSpace x = false) ∧
      (∀ x ∈ A ++ '/' :: (B ++ '/' :: C), x ≠ '-') ∧
      threeParts (splitOnChar '/' (A ++ '/' :: (B ++ '/' :: C))) = some (A, B, C) ∧
      A ++ '/' :: (B ++ '/' :: C) ≠ [] := by
    intro A B C hA hB hC
    have hmem : ∀ x ∈ A ++ '/' :: (B ++ '/' :: C), isDig x = true ∨ x = '/' := by
      intro x hx
      rcases List.mem_append.mp hx with h | h
      · exact .inl (digAll hA x h)
      · rcases List.mem_cons.mp h with rfl | h
        · exact .inr rfl
        · rcases List.mem_append.mp h with h | h
          · exact .inl (digAll hB x h)
          · rcases List.mem_cons.mp h with rfl | h
            · exact .inr rfl
            · exact .inl (digAll hC x h)
    refine ⟨?_, ?_, ?_, by simp⟩
    · intro x hx
      rcases hmem x hx with h | rfl
      · exact isDig_not_space h
      · decide
    · intro x hx
      rcases hmem x hx with h | rfl
      · exact isDig_ne_dash h
      · decide
    · rw [splitOnChar_append (fun x hx => isDig_ne_slash (digAll hA x hx))]
      rw [splitOnChar_append (fun x hx => isDig_ne_slash (digAll hB x hx))]
      rw [splitOnChar_of_notMem (fun x hx => isDig_ne_slash (digAll hC x hx))]
      rfl
  refine ⟨?_, ?_, ?_, ?_, ?_, ?_, by decide, by decide⟩
  · intro A B C dt hA hB hC hd
    obtain ⟨hnosp, hnodash, hsplit, hne⟩ := slashShape A B C (yDig hA) (mdDig hB) (mdDig hC)
    refine ⟨?_, ?_, (pyDate_eq_some hd).1⟩
    · unfold parse_roc_date
      rw [clean_ws_of_noWs hnosp, replaceChar_of_notMem hnodash, if_neg hne, hsplit]
      simp only [hA, hB, hC, Bool.and_self, if_true, hd]
    · unfold csv_parse_roc_date
      rw [pyStrip_of_noWs hnosp, if_neg hne, hsplit]
      simp only [hA, hB, hC, Bool.and_self, if_true, hd]
  · intro A B C hA hB hC hd
    obtain ⟨hnosp, hnodash, hsplit, hne⟩ := slashShape A B C (yDig hA) (mdDig hB) (mdDig hC)
    constructor
    · unfold parse_roc_date
      rw [clean_ws_of_noWs hnosp, replaceChar_of_notMem hnodash, if_neg hne, hsplit]
      simp only [hA, hB, hC, Bool.and_self, if_true, hd]
    · unfold csv_parse_roc_date
      rw [pyStrip_of_noWs hnosp, if_neg hne, hsplit]
      simp only [hA, hB, hC, Bool.and_self, if_true, hd]
  · intro A BC dt hA hBC hAlen hBClen hd
    have hall : (A ++ BC).all isDig = true := by
      rw [List.all_append, hA, hBC]; rfl
    have hnosp : ∀ x ∈ A ++ BC, pyIsSpace x = false := fun x hx =>
      isDig_not_space (List.all_eq_true.mp hall x hx)
    have hnodash : ∀ x ∈ A ++ BC, x ≠ '-' := fun x hx =>
      isDig_ne_dash (List.all_eq_true.mp hall x hx)
    have hsplit : threeParts (splitOnChar '/' (A ++ BC)) = none := by
      rw [splitOnChar_of_notMem (fun x hx => isDig_ne_slash (List.all_eq_true.mp hall x hx))]
      rfl
    have hne : A ++ BC ≠ [] := by
      intro hcontra
      have := congrArg List.length hcontra
      simp [hBClen] at this
    have hlen : (A ++ BC).length = A.length + 4 := by simp [hBClen]
    refine ⟨?_, ?_, (pyDate_eq_some hd).1⟩
    · unfold parse_roc_date
      rw [clean_ws_of_noWs hnosp, replaceChar_of_notMem hnodash, if_neg hne, hsplit]
      rcases hAlen with h2 | h3
      · have htk : (A ++ BC).take 2 = A := by
          rw [← h2]; exact List.take_left A BC
        have hdr2 : (A ++ BC).drop 2 = BC := by
          rw [← h2]; exact List.drop_left A BC
        have hdr4 : (A ++ BC).drop 4 = BC.drop 2 := by
          have h4 : (4 : Nat) = A.length + 2 := by omega
          rw [h4, List.drop_append]
        have c7 : ((A ++ BC).all isDig && ((A ++ BC).length = 7 : Bool)) = false := by
          rw [hlen, h2]; simp
        have c6 : ((A ++ BC).all isDig && ((A ++ BC).length = 6 : Bool)) = true := by
          rw [hall, hlen, h2]; simp
        simp only [c7, c6, Bool.false_eq_true, if_false, if_true, htk, hdr2, hdr4]
        simp [hd]
      · have htk : (A ++ BC).take 3 = A := by
          rw [← h3]; exact List.take_left A BC
        have hdr3 : (A ++ BC).drop 3 = BC := by
          rw [← h3]; exact List.drop_left A BC
        have hdr5 : (A ++ BC).drop 5 = BC.drop 2 := by
          have h5 : (5 : Nat) = A.length + 2 := by omega
          rw [h5, List.drop_append]
        have c7 : ((A ++ BC).all isDig && ((A ++ BC).length = 7 : Bool)) = true := by
          rw [hall, hlen, h3]; simp
        simp only [c7, if_true, htk, hdr3, hdr5]
        simp [hd]
    · unfold csv_parse_roc_date
      rw [pyStrip_of_noWs hnosp, if_neg hne, hsplit]
  · intro A BC hA hBC hAlen hBClen hd
    have hall : (A ++ BC).all isDig = true := by
      rw [List.all_append, hA, hBC]; rfl
    have hnosp : ∀ x ∈ A ++ BC, pyIsSpace x = false := fun x hx =>
      isDig_not_space (List.all_eq_true.mp hall x hx)
    have hnodash : ∀ x ∈ A ++ BC, x ≠ '-' := fun x hx =>
      isDig_ne_dash (List.all_eq_true.mp hall x hx)
    have hsplit : threeParts (splitOnChar '/' (A ++ BC)) = none := by
      rw [splitOnChar_of_notMem (fun x hx => isDig_ne_slash (List.all_eq_true.mp hall x hx))]
      rfl
    have hne : A ++ BC ≠ [] := by
      intro hcontra
      have := congrArg List.length hcontra
      simp [hBClen] at this
    have hlen : (A ++ BC).length = A.length + 4 := by simp [hBClen]
    constructor
    · unfold parse_roc_date
      rw [clean_ws_of_noWs hnosp, replaceChar_of_notMem hnodash, if_neg hne, hsplit]
      rcases hAlen with h2 | h3
      · have htk : (A ++ BC).take 2 = A := by
          rw [← h2]; exact List.take_left A BC
        have hdr2 : (A ++ BC).drop 2 = BC := by
          rw [← h2]; exact List.drop_left A BC
        have hdr4 : (A ++ BC).drop 4 = BC.drop 2 := by
          have h4 : (4 : Nat) = A.length + 2 := by omega
          rw [h4, List.drop_append]
        have c7 : ((A ++ BC).all isDig && ((A ++ BC).length = 7 : Bool)) = false := by
          rw [hlen, h2]; simp
        have c6 : ((A ++ BC).all isDig && ((A ++ BC).length = 6 : Bool)) = true := by
          rw [hall, hlen, h2]; simp
        simp only [c7, c6, Bool.false_eq_true, if_false, if_true, htk, hdr2, hdr4]
        simp [hd]
      · have htk : (A ++ BC).take 3 = A := by
          rw [← h3]; exact List.take_left A BC
        have hdr3 : (A ++ BC).drop 3 = BC := by
          rw [← h3]; exact List.drop_left A BC
        have hdr5 : (A ++ BC).drop 5 = BC.drop 2 := by
          have h5 : (5 : Nat) = A.length + 2 := by omega
          rw [h5, List.drop_append]
        have c7 : ((A ++ BC).all isDig && ((A ++ BC).length = 7 : Bool)) = true := by
          rw [hall, hlen, h3]; simp
        simp only [c7, if_true, htk, hdr3, hdr5]
        simp [hd]
    · unfold csv_parse_roc_date
      rw [pyStrip_of_noWs hnosp, if_neg hne, hsplit]
  · intro A B C hA hB hC hshape
    obtain ⟨hnosp, hnodash, hsplit, hne⟩ := slashShape A B C hA hB hC
    constructor
    · unfold parse_roc_date
      rw [clean_ws_of_noWs hnosp, replaceChar_of_notMem hnodash, if_neg hne, hsplit]
      simp [hshape]
    · unfold csv_parse_roc_date
      rw [pyStrip_of_noWs hnosp, if_neg hne, hsplit]
      simp [hshape]
  · intro t ht hne h6 h7
    have hnosp : ∀ x ∈ t, pyIsSpace x = false := fun x hx =>
      isDig_not_space (List.all_eq_true.mp ht x hx)
    have hnodash : ∀ x ∈ t, x ≠ '-' := fun x hx =>
      isDig_ne_dash (List.all_eq_true.mp ht x hx)
    have hsplit : threeParts (splitOnChar '/' t) = none := by
      rw [splitOnChar_of_notMem (fun x hx => isDig_ne_slash (List.all_eq_true.mp ht x hx))]
      rfl
    constructor
    · unfold parse_roc_date
      rw [clean_ws_of_noWs hnosp, replaceChar_of_notMem hnodash, if_neg hne, hsplit]
      have c7 : (t.all isDig && ((t.length = 7 : Bool))) = false := by
        simp [h7]
      have c6 : (t.all isDig && ((t.length = 6 : Bool))) = false := by
        simp [h6]
      simp only [c7, c6, Bool.false_eq_true, if_false]
    · unfold csv_parse_roc_date
      rw [pyStrip_of_noWs hnosp, if_neg hne, hsplit]

/-- C2 witness: the amended theorem applied at `"108/3/19"` (valid),
`"108/13/1"` (invalid slash date), `"1080319"` (valid digit-run),
`"1081301"` (invalid digit-run: month 13, the shared parser raises),
`"1234/5/6"` (year part fails the 2–3 digit shape) and `"12345"`
(all-digit, length neither 6 nor 7). -/
theorem C2_parse_roc_date_witness :
    (parse_roc_date (("108").toList ++ '/' :: (("3").toList ++ '/' :: ("19").toList)) =
        .ok (some ⟨2019, 3, 19⟩) ∧
      csv_parse_roc_date (("108").toList ++ '/' :: (("3").toList ++ '/' :: ("19").toList)) =
        some ⟨2019, 3, 19⟩ ∧
      (⟨2019, 3, 19⟩ : PyDate).year = natOfDigits ("108").toList + 1911) ∧
    (parse_roc_date (("108").toList ++ '/' :: (("13").toList ++ '/' :: ("1").toList)) = .exn ∧
      csv_parse_roc_date (("108").toList ++ '/' :: (("13").toList ++ '/' :: ("1").toList)) = none) ∧
    (parse_roc_date (("108").toList ++ ("0319").toList) = .ok (some ⟨2019, 3, 19⟩) ∧
      csv_parse_roc_date (("108").toList ++ ("0319").toList) = none ∧
      (⟨2019, 3, 19⟩ : PyDate).year = natOfDigits ("108").toList + 1911) ∧
    (parse_roc_date (("108").toList ++ ("1301").toList) = .exn ∧
      csv_parse_roc_date (("108").toList ++ ("1301").toList) = none) ∧
    (parse_roc_date (("1234").toList ++ '/' :: (("5").toList ++ '/' :: ("6").toList)) =
        .ok none ∧
      csv_parse_roc_date (("1234").toList ++ '/' :: (("5").toList ++ '/' :: ("6").toList)) =
        none) ∧
    (parse_roc_date ("12345").toList = .ok none ∧
      csv_parse_roc_date ("12345").toList = none) := by
  refine ⟨?_, ?_, ?_, ?_, ?_, ?_⟩
  · exact C2_parse_roc_date.1 ("108").toList ("3").toList ("19").toList
      ⟨2019, 3, 19⟩ (by decide) (by decide) (by decide) (by decide)
  · exact C2_parse_roc_date.2.1 ("108").toList ("13").toList ("1").toList
      (by decide) (by decide) (by decide) (by decide)
  · exact C2_parse_roc_date.2.2.1 ("108").toList ("0319").toList
      ⟨2019, 3, 19⟩ (by decide) (by decide) (by decide) (by decide) (by decide)
  · exact C2_parse_roc_date.2.2.2.1 ("108").toList ("1301").toList
      (by decide) (by decide) (by decide) (by decide) (by decide)
  · exact C2_parse_roc_date.2.2.2.2.1 ("1234").toList ("5").toList ("6").toList
      (by decide) (by decide) (by decide) (by decide)
  · exact C2_parse_roc_date.2.2.2.2.2.1 ("12345").toList
      (by decide) (by decide) (by decide) (by decide)

/-! ### C8: totality and row classification of `extract_case_row` -/

theorem isDig_ne_plus {c : Char} (h : isDig c = true) : c ≠ '+' := by
  rintro rfl
  revert h
  decide

theorem isDig_pyIsDigit {c : Char} (h : isDig c = true) : pyIsDigit c = true := by
  simp [pyIsDigit, h]

/-- C8 counterexample: the cell `"²"` passes the importer's digit test
(`str.isdigit` accepts the superscript-two code point), yet
`int(cols[0])` raises `ValueError` on it, so `extract_case_row` raises
on the row `["²"]` instead of returning a record or `None`. -/
theorem C8_counterexample :
    cell_is_int ("²").toList = true ∧ extractCaseRowS ["²"] = .exn := by
  exact ⟨by decide, by decide⟩

/-- C8 (amended): `extract_case_row` returns `None` exactly when the
row is empty or its trimmed first cell is not a non-empty `isdigit`
string; every row whose trimmed first cell consists of decimal digits
yields a record; but a first cell passing `isdigit` through non-decimal
digit code points (such as `"²"`) makes `int(cols[0])` raise, so the
parser is not total on arbitrary cell strings. -/
theorem C8_extract_case_row :
    (∀ cols : List (List Char),
        extract_case_row cols = .ok none ↔
          cols = [] ∨ cell_is_int ((cols.map pyStrip).headD []) = false) ∧
    (∀ (cols : List (List Char)) (c0 : List Char) (rest : List (List Char)),
        cols.map pyStrip = c0 :: rest → c0 ≠ [] → c0.all isDig = true →
        ∃ r, extract_case_row cols = .ok (some r)) := by
  constructor
  · intro cols
    cases cols with
    | nil => simp [extract_case_row]
    | cons c cs =>
      simp only [extract_case_row, List.map_cons, List.headD_cons]
      cases h : cell_is_int (pyStrip c) with
      | false => simp [h]
      | true =>
        simp only [h, Bool.not_true, Bool.false_eq_true, if_false]
        cases hp : pyIntOfStr (pyStrip c) with
        | none => simp
        | some n => simp
  · intro cols c0 rest hmap hne hdig
    have hnosp : ∀ x ∈ c0, pyIsSpace x = false := fun x hx =>
      isDig_not_space (List.all_eq_true.mp hdig x hx)
    have hstrip : pyStrip c0 = c0 := pyStrip_of_noWs hnosp
    have hcell : cell_is_int c0 = true := by
      unfold cell_is_int
      rw [hstrip]
      simp only [hne, Bool.and_eq_true, decide_eq_true_eq, ne_eq, not_false_iff, true_and]
      exact List.all_eq_true.mpr fun x hx => isDig_pyIsDigit (List.all_eq_true.mp hdig x hx)
    have hint : pyIntOfStr c0 = some ((natOfDigits c0 : Int)) := by
      unfold pyIntOfStr
      rw [hstrip]
      rcases c0 with _ | ⟨ch, tl⟩
      · exact absurd rfl hne
      · have hch : isDig ch = true := List.all_eq_true.mp hdig ch (by simp)
        dsimp only
        split
        · rename_i ds heq
          exact absurd (List.head_eq_of_cons_eq heq) (isDig_ne_dash hch)
        · rename_i ds heq
          exact absurd (List.head_eq_of_cons_eq heq) (isDig_ne_plus hch)
        · simp [hne, hdig]
    cases cols with
    | nil => simp at hmap
    | cons c cs =>
      simp only [List.map_cons, List.cons.injEq] at hmap
      refine ⟨buildCaseRec (c0 :: rest) (natOfDigits c0), ?_⟩
      simp only [extract_case_row, List.map_cons, hmap.1, hmap.2, hcell, hint,
        Bool.not_true, Bool.false_eq_true, if_false]

/-- C8 witness: the amended theorem applied to the non-record row
`["x"]` and to the digit-keyed row `["12"]`. -/
theorem C8_extract_case_row_witness :
    (extract_case_row [("x").toList] = .ok none ↔
      [("x").toList] = [] ∨
        cell_is_int (([("x").toList].map pyStrip).headD []) = false) ∧
    ∃ r, extract_case_row [("12").toList] = .ok (some r) := by
  exact ⟨C8_extract_case_row.1 [("x").toList],
    C8_extract_case_row.2 [("12").toList] ("12").toList [] (by decide)
      (by decide) (by decide)⟩

/-! ### C7: the shifted-column realignment example -/

theorem findSome?_range'_first {β : Type} (f : Nat → Option β) (v : β) :
    ∀ (n a d : Nat), a ≤ d → d < a + n →
    (∀ i, a ≤ i → i < d → f i = none) → f d = some v →
    (List.range' a n).findSome? f = some v := by
  intro n
  induction n with
  | zero => intro a d h1 h2; omega
  | succ n ih =>
    intro a d h1 h2 hbefore hf
    rw [List.range'_succ, List.findSome?_cons]
    rcases Nat.eq_or_lt_of_le h1 with rfl | hlt
    · rw [hf]
    · rw [hbefore a (Nat.le_refl a) hlt]
      exact ih (a + 1) d hlt (by omega) (fun i hi hid => hbefore i (by omega) hid) hf

/-- C7 counterexample: a row shaped exactly as the claim demands — first
cell `"12"`, second cell `"25.4 信義區"`, the first date-grammar cell
(`"108/3/19"`) at index 12, `"失其效力"` right after it and `"35.00"`
as the 4th-from-last cell — yields a record whose approval date is
`None` and whose note is empty, because the scan for the date anchor
stops at index 11 (`range(2, min(len(cols), 12))`). -/
theorem C7_counterexample :
    ((extractCaseRowS ["12", "25.4 信義區", "x", "x", "x", "x", "x", "x", "x",
      "x", "x", "x", "108/3/19", "失其效力", "35.00", "a", "b", "c"]).toOption.join.map
        (fun r => (r.approved_date, r.note.asString))) = some (none, "") := by
  decide

/-- C7 (amended): for every row whose trimmed cells have `"12"` first,
`"25.4 信義區"` second, the first date-grammar cell at an index `d`
with `2 ≤ d < 12` equal to `"108/3/19"`, the cell `"失其效力"`
immediately after it, and `"35.00"` as the 4th-from-last cell, the
realignment parser yields sequence number 12, site area 25.4, district
`"信義區"`, approval date 2019-03-19, note `"失其效力"` and total
bonus 35.00.  (The original claim allowed the date cell at any index
`≥ 2`; the code only scans indices 2 through 11.) -/
theorem C7_extract_case_row (cols cs : List (List Char)) (d : Nat)
    (hmap : cols.map pyStrip = cs)
    (h0 : cs.getD 0 [] = ("12").toList)
    (h1 : cs.getD 1 [] = ("25.4 信義區").toList)
    (hd2 : 2 ≤ d) (hd12 : d < 12) (hdlen : d + 1 < cs.length)
    (hdate : cs.getD d [] = ("108/3/19").toList)
    (hnodate : ∀ i, 2 ≤ i → i < d → csv_parse_roc_date (cs.getD i []) = none)
    (hnote : cs.getD (d + 1) [] = ("失其效力").toList)
    (hbonus : cs.getD (cs.length - 4) [] = ("35.00").toList) :
    ∃ r, extract_case_row cols = .ok (some r) ∧
      r.case_no = 12 ∧
      r.site_area_sqm = some ⟨254, 1⟩ ∧
      r.district = ("信義區").toList ∧
      r.approved_date = some ⟨2019, 3, 19⟩ ∧
      r.note = ("失其效力").toList ∧
      r.total_bonus_pct = some ⟨3500, 2⟩ := by
  have hlen2 : 2 ≤ cs.length := by omega
  have hlen4 : 4 ≤ cs.length := by omega
  -- the date-anchor scan stops at the hypothesized cell
  have hscan : ((List.range' 2 (min cs.length 12 - 2)).findSome? fun idx =>
      match csv_parse_roc_date (cs.getD idx []) with
      | some dt => some (idx, dt)
      | none => none) = some (d, (⟨2019, 3, 19⟩ : PyDate)) := by
    refine findSome?_range'_first _ _ (min cs.length 12 - 2) 2 d hd2 (by omega) ?_ ?_
    · intro i h2i hid
      rw [hnodate i h2i hid]
    · rw [hdate, show csv_parse_roc_date (("108/3/19").toList) =
        some ⟨2019, 3, 19⟩ by decide]
  -- the row is a case row
  have hnenil : cs ≠ [] := by
    intro h
    rw [h] at hdlen
    simp at hdlen
  obtain ⟨c0, cs1, hcs⟩ : ∃ c0 cs1, cs = c0 :: cs1 := by
    cases cs with
    | nil => exact absurd rfl hnenil
    | cons a b => exact ⟨a, b, rfl⟩
  have hc0 : c0 = ("12").toList := by
    rw [hcs] at h0
    simpa using h0
  have hcell : cell_is_int (("12").toList) = true := by decide
  have hint : pyIntOfStr (("12").toList) = some 12 := by decide
  have hhead : extract_case_row cols = .ok (some (buildCaseRec cs 12)) := by
    unfold extract_case_row
    dsimp only
    rw [hmap, hcs, hc0]
    simp only [hcell, hint, Bool.not_true, Bool.false_eq_true, if_false]
  have hge2 : cs.length ≥ 2 := hlen2
  have hge4 : cs.length ≥ 4 := hlen4
  refine ⟨buildCaseRec cs 12, hhead, ?_, ?_, ?_, ?_, ?_, ?_⟩
  · rfl
  · unfold buildCaseRec
    dsimp only
    rw [if_pos hge2, h1]
    decide
  · unfold buildCaseRec
    dsimp only
    rw [if_pos hge2, h1]
    decide
  · unfold buildCaseRec
    dsimp only
    rw [hscan]
    rfl
  · unfold buildCaseRec
    dsimp only
    rw [hscan]
    dsimp only
    have hdrop : cs.drop (d + 1) = ("失其效力").toList :: cs.drop (d + 2) := by
      rw [List.drop_eq_getElem_cons hdlen]
      rw [← List.getD_eq_getElem cs [] hdlen]
      rw [hnote]
    rw [hdrop, List.take_succ_cons, List.find?_cons_of_pos _ (by decide)]
  · unfold buildCaseRec
    dsimp only
    rw [if_pos hge4, hbonus]
    decide

/-- C7 witness: the amended theorem applied to a concrete ten-cell row
with the date anchor at index 3. -/
theorem C7_extract_case_row_witness :
    ∃ r, extractCaseRowS ["12", "25.4 信義區", "foo", "108/3/19", "失其效力",
        "junk", "35.00", "a", "b", "c"] = .ok (some r) ∧
      r.case_no = 12 ∧
      r.site_area_sqm = some ⟨254, 1⟩ ∧
      r.district = ("信義區").toList ∧
      r.approved_date = some ⟨2019, 3, 19⟩ ∧
      r.note = ("失其效力").toList ∧
      r.total_bonus_pct = some ⟨3500, 2⟩ := by
  exact C7_extract_case_row
    ([("12"), ("25.4 信義區"), ("foo"), ("108/3/19"), ("失其效力"),
      ("junk"), ("35.00"), ("a"), ("b"), ("c")].map String.toList)
    ([("12"), ("25.4 信義區"), ("foo"), ("108/3/19"), ("失其效力"),
      ("junk"), ("35.00"), ("a"), ("b"), ("c")].map String.toList) 3
    (by decide) (by decide) (by decide) (by decide) (by decide) (by decide)
    (by decide)
    (by intro i h2 h3
        have : i = 2 := by omega
        subst this
        decide)
    (by decide) (by decide)

/-! ### C9: bounded-text clipping -/

/-- A minimal `<Data>` element carrying only the natural-key child. -/
def permitElem (no : List Char) : XmlElem :=
  .mk "Data" [] [] [.mk "執照號碼" no [] []]

/-- A permit number one character longer than the column bound. -/
def longPermitNo : List Char := List.replicate 65 'A'

/-- Placeholder record data (used only as the unreachable fallback when
reading back a known-successful extraction). -/
def emptyPermitData : PermitData :=
  { permit_year := [], issue_date := none, build_type := [], structure_ := [],
    zoning := [], building_area_sqm := none, arcade_site_area_sqm := none,
    other_site_area_sqm := none, building_count := none, block_count := none,
    floors_above := none, floors_below := none, unit_count := none,
    build_deadline := [], project_cost := none, owner := [], designer := [],
    supervisor := [], applicable_law := [], building_info := [], location := [],
    land_text := [], section_ := [], subsection := [], parcel_no := [],
    summary := [], misc_works := [], notes := [], raw := .mk "" [] [] [] }

/-- The record a `<Data>` element extracts to (with an unreachable
fallback), used to name extraction results in closed statements. -/
def extractedPermit (el : XmlElem) : ParsedPermit :=
  match extractPermit el with
  | .ok r => r
  | _ => { permit_no := [], data := emptyPermitData, addresses := [],
           parcels := [], floors := [], misc_items := [], note_items := [] }

/-- C9 counterexample: importing a record whose permit number has 65
characters stores a parent row whose `permit_no` is 65 characters long —
longer than the column's `max_length` 64 — because `clip_to_model` only
truncates keys of the `data` dict and `permit_no` is passed to
`update_or_create` outside of it. -/
theorem C9_counterexample :
    ((handleImport { upsert := true } [] [permitElem longPermitNo]).db.map
      (fun kv => kv.2.permit_no.length)) = [65] ∧ permit_no_max_length < 65 := by
  exact ⟨by decide, by decide⟩

/-- C9 (amended): clipping is idempotent and length-bounding
(`len(clip(x,n)) ≤ n`, `clip(clip(x,n),n) = clip(x,n)`); it is applied
to every length-constrained text field of the `data` dict and to the
`address_text`/`parcel_text` child columns before the write, while the
archival `raw` payload always keeps the untruncated original element
tree; but the natural key `permit_no` itself is written unclipped. -/
theorem C9_clip :
    (∀ (x : List Char) (n : Nat),
        (pyClip x n).length ≤ n ∧ pyClip (pyClip x n) n = pyClip x n) ∧
    (∀ d : PermitData,
        (clip_BuildingPermit d).permit_year.length ≤ 10 ∧
        (clip_BuildingPermit d).build_type.length ≤ 32 ∧
        (clip_BuildingPermit d).structure_.length ≤ 128 ∧
        (clip_BuildingPermit d).zoning.length ≤ 128 ∧
        (clip_BuildingPermit d).build_deadline.length ≤ 64 ∧
        (clip_BuildingPermit d).owner.length ≤ 256 ∧
        (clip_BuildingPermit d).designer.length ≤ 256 ∧
        (clip_BuildingPermit d).supervisor.length ≤ 256 ∧
        (clip_BuildingPermit d).location.length ≤ 256 ∧
        (clip_BuildingPermit d).section_.length ≤ 64 ∧
        (clip_BuildingPermit d).subsection.length ≤ 64 ∧
        (clip_BuildingPermit d).parcel_no.length ≤ 32) ∧
    (∀ r : ParsedPermit,
        (∀ row ∈ (permitRowOf r).addresses, row.text.length ≤ 512) ∧
        (∀ row ∈ (permitRowOf r).parcels, row.text.length ≤ 256) ∧
        (permitRowOf r).data.raw = r.data.raw ∧
        (permitRowOf r).permit_no = r.permit_no) ∧
    (∀ (el : XmlElem) (p : ParsedPermit),
        extractPermit el = .ok p → p.data.raw = elementToDict el) := by
  have hcl : ∀ (x : List Char) (n : Nat), (pyClip x n).length ≤ n ∧
      pyClip (pyClip x n) n = pyClip x n := by
    intro x n
    by_cases h : x.length > n
    · have h1 : pyClip x n = x.take n := by
        unfold pyClip
        rw [if_pos h]
      have h2 : (x.take n).length = n := by
        rw [List.length_take]
        omega
      rw [h1]
      refine ⟨by omega, ?_⟩
      unfold pyClip
      rw [h2, if_neg (by omega)]
    · have h1 : pyClip x n = x := by
        unfold pyClip
        rw [if_neg h]
      rw [h1]
      exact ⟨by omega, h1⟩
  refine ⟨hcl, ?_, ?_, ?_⟩
  · intro d
    unfold clip_BuildingPermit
    refine ⟨(hcl _ _).1, (hcl _ _).1, (hcl _ _).1, (hcl _ _).1, (hcl _ _).1,
      (hcl _ _).1, (hcl _ _).1, (hcl _ _).1, (hcl _ _).1, (hcl _ _).1,
      (hcl _ _).1, (hcl _ _).1⟩
  · intro r
    refine ⟨?_, ?_, rfl, rfl⟩
    · intro row hrow
      unfold permitRowOf seqRows at hrow
      simp only [List.mem_map] at hrow
      obtain ⟨p, -, rfl⟩ := hrow
      exact (hcl _ _).1
    · intro row hrow
      unfold permitRowOf seqRows at hrow
      simp only [List.mem_map] at hrow
      obtain ⟨p, -, rfl⟩ := hrow
      exact (hcl _ _).1
  · intro el p h
    unfold extractPermit at h
    dsimp only at h
    by_cases hk : txtP (childTag el "執照號碼") = []
    · rw [if_pos hk] at h
      cases h
    · rw [if_neg hk] at h
      split at h
      · cases h
      all_goals (cases h; rfl)

/-- C9 witness: the amended theorem applied at the 65-character permit
number, the bound 64, and the key-only `<Data>` element. -/
theorem C9_clip_witness :
    ((pyClip longPermitNo 64).length ≤ 64 ∧
      pyClip (pyClip longPermitNo 64) 64 = pyClip longPermitNo 64) ∧
    (extractedPermit (permitElem longPermitNo)).data.raw =
      elementToDict (permitElem longPermitNo) := by
  exact ⟨C9_clip.1 longPermitNo 64,
    C9_clip.2.2.2 (permitElem longPermitNo) (extractedPermit (permitElem longPermitNo)) rfl⟩

/-! ### C4: records without a natural key are skipped, never written -/

/-- C4: in both XML importers, a `<Data>` record whose natural key is
empty (the permit number; for use permits, the year or the number) is
never written — the store is returned unchanged — and the skipped
counter is incremented by exactly one, for every option combination,
dry-run and live alike. -/
theorem C4_missing_key :
    (∀ (o : Opts) (s : Stats) (db : PermitDb) (el : XmlElem),
        txtP (childTag el "執照號碼") = [] →
        permitStep o s db el = .next { s with skipped := s.skipped + 1 } db) ∧
    (∀ (o : Opts) (s : Stats) (db : UseDb) (el : XmlElem),
        txtU (childTag el "執照年度") = [] ∨ txtU (childTag el "執照號碼") = [] →
        useStep o s db el = .next { s with skipped := s.skipped + 1 } db) := by
  constructor
  · intro o s db el h
    unfold permitStep extractPermit
    dsimp only
    rw [if_pos h]
  · intro o s db el h
    unfold useStep extractUse
    dsimp only
    rcases h with h | h <;> simp [h]

/-- C4 witness: both skip paths at a key-less `<Data>` element with
zeroed counters and an empty store. -/
theorem C4_missing_key_witness :
    permitStep {} {} [] (XmlElem.mk "Data" [] [] []) =
      .next { ({} : Stats) with skipped := ({} : Stats).skipped + 1 } [] ∧
    useStep {} {} [] (XmlElem.mk "Data" [] [] []) =
      .next { ({} : Stats) with skipped := ({} : Stats).skipped + 1 } [] := by
  exact ⟨C4_missing_key.1 {} {} [] (XmlElem.mk "Data" [] [] []) (by decide),
    C4_missing_key.2 {} {} [] (XmlElem.mk "Data" [] [] []) (.inl (by decide))⟩

/-! ### C5: dry-run never mutates the store -/

theorem permitStep_dry (o : Opts) (hdry : o.dry_run = true) (s : Stats)
    (db : PermitDb) (el : XmlElem) :
    permitStep o s db el = .next { s with skipped := s.skipped + 1 } db ∨
    permitStep o s db el = .next { s with created := s.created + 1 } db ∨
    permitStep o s db el = .abort s db := by
  unfold permitStep
  split
  · exact .inl rfl
  · exact .inr (.inr rfl)
  · rw [hdry, if_pos rfl]
    exact .inr (.inl rfl)

theorem runLoop_dry_db (o : Opts) (hdry : o.dry_run = true) :
    ∀ (els : List XmlElem) (s : Stats) (db : PermitDb),
      (runLoop o s db els).db = db := by
  intro els
  induction els with
  | nil => intro s db; rfl
  | cons el rest ih =>
    intro s db
    unfold runLoop
    split
    · dsimp only
      split
      · rfl
      · split
        · rename_i s'' db' heq
          have hdb : db' = db := by
            rcases permitStep_dry o hdry _ db el with h | h | h <;>
              rw [heq] at h <;> cases h <;> rfl
          rw [ih s'' db', hdb]
        · rename_i s'' db' heq
          have hdb : db' = db := by
            rcases permitStep_dry o hdry _ db el with h | h | h <;>
              rw [heq] at h <;> cases h <;> rfl
          rw [show (RunOut.raised s'' db').db = db' from rfl, hdb]
    · exact ih s db

/-- C5: with `--dry-run` set, a whole import run leaves the store
exactly as it was — the clear-before-import deletion is suppressed and
no record creates, updates or deletes anything — for every input
element sequence and every combination of the other options. -/
theorem C5_dry_run (o : Opts) (hdry : o.dry_run = true) (db : PermitDb)
    (els : List XmlElem) : (handleImport o db els).db = db := by
  unfold handleImport
  simp only [hdry, Bool.not_true, Bool.and_false, Bool.false_eq_true, if_false]
  exact runLoop_dry_db o hdry els {} db

/-- C5 witness: a dry run with `--clear` over one keyed record leaves
an empty store empty. -/
theorem C5_dry_run_witness :
    (handleImport { clear := true, dry_run := true, upsert := true } []
      [permitElem (("A").toList)]).db = [] :=
  C5_dry_run { clear := true, dry_run := true, upsert := true } rfl []
    [permitElem (("A").toList)]

/-! ### C10: the record-count limit -/

/-- Number of `<Data>` elements in the stream. -/
def dataCount (els : List XmlElem) : Nat :=
  els.countP fun el => el.tag == "Data"

/-- Number of rows the CSV importer recognizes as case rows. -/
def caseRowCount (rows : List (List (List Char))) : Nat :=
  rows.countP fun row => ((extract_case_row row).toOption.join).isSome

theorem permitStep_next_counts (o : Opts) (s : Stats) (db : PermitDb)
    (el : XmlElem) (s' : Stats) (db' : PermitDb)
    (h : permitStep o s db el = .next s' db') :
    s'.processed = s.processed ∧
    s'.created + s'.updated + s'.skipped =
      s.created + s.updated + s.skipped + 1 := by
  unfold permitStep at h
  split at h
  · cases h
    exact ⟨rfl, by dsimp only; omega⟩
  · cases h
  · split at h
    · cases h
      exact ⟨rfl, by dsimp only; omega⟩
    · split at h
      · cases h
      · split at h <;> (cases h; exact ⟨rfl, by dsimp only; omega⟩)

theorem runLoop_limitN_counts (o : Opts) (N : Nat) (hN : o.limit = N)
    (hN0 : N ≠ 0) :
    ∀ (els : List XmlElem) (s : Stats) (db : PermitDb) (s' : Stats)
      (db' : PermitDb), s.processed ≤ N → runLoop o s db els = .done s' db' →
      s'.processed = min (s.processed + dataCount els) (N + 1) ∧
      s'.created + s'.updated + s'.skipped =
        s.created + s.updated + s.skipped + min (dataCount els) (N - s.processed) := by
  intro els
  induction els with
  | nil =>
    intro s db s' db' hp h
    cases h
    constructor
    · simp only [dataCount, List.countP_nil]
      omega
    · simp only [dataCount, List.countP_nil]
      omega
  | cons el rest ih =>
    intro s db s' db' hp h
    unfold runLoop at h
    by_cases ht : el.tag = "Data"
    · rw [if_pos ht] at h
      dsimp only at h
      have hdc : dataCount (el :: rest) = dataCount rest + 1 := by
        simp [dataCount, List.countP_cons, ht]
      split at h
      · rename_i hcond
        simp only [Bool.and_eq_true, decide_eq_true_eq, ne_eq] at hcond
        rw [hN] at hcond
        cases h
        constructor
        · dsimp only
          omega
        · dsimp only
          omega
      · rename_i hcond
        simp only [Bool.and_eq_true, decide_eq_true_eq, ne_eq, not_and, not_lt] at hcond
        rw [hN] at hcond
        have hle : s.processed + 1 ≤ N := hcond hN0
        split at h
        · rename_i s2 db2 heq
          obtain ⟨hpr, hsum⟩ := permitStep_next_counts _ _ _ _ _ _ heq
          dsimp only at hpr hsum
          obtain ⟨ih1, ih2⟩ := ih s2 db2 s' db' (by omega) h
          constructor
          · omega
          · omega
        · cases h
    · rw [if_neg ht] at h
      have hdc : dataCount (el :: rest) = dataCount rest := by
        simp [dataCount, List.countP_cons, ht]
      obtain ⟨ih1, ih2⟩ := ih s db s' db' hp h
      constructor
      · omega
      · omega

theorem runLoop_limit0_processed (o : Opts) (h0 : o.limit = 0) :
    ∀ (els : List XmlElem) (s : Stats) (db : PermitDb) (s' : Stats)
      (db' : PermitDb), runLoop o s db els = .done s' db' →
      s'.processed = s.processed + dataCount els := by
  intro els
  induction els with
  | nil =>
    intro s db s' db' h
    cases h
    simp [dataCount]
  | cons el rest ih =>
    intro s db s' db' h
    unfold runLoop at h
    by_cases ht : el.tag = "Data"
    · rw [if_pos ht] at h
      dsimp only at h
      have hdc : dataCount (el :: rest) = dataCount rest + 1 := by
        simp [dataCount, List.countP_cons, ht]
      split at h
      · rename_i hcond
        simp only [Bool.and_eq_true, decide_eq_true_eq, ne_eq] at hcond
        rw [h0] at hcond
        exact absurd hcond.1 (by simp)
      · split at h
        · rename_i s2 db2 heq
          have hpr := (permitStep_next_counts _ _ _ _ _ _ heq).1
          dsimp only at hpr
          have := ih s2 db2 s' db' h
          omega
        · cases h
    · rw [if_neg ht] at h
      have hdc : dataCount (el :: rest) = dataCount rest := by
        simp [dataCount, List.countP_cons, ht]
      have := ih s db s' db' h
      omega

theorem runCsvLoop_limitN_parsed (N : Nat) (hN0 : N ≠ 0) (dry : Bool) :
    ∀ (rows : List (List (List Char))) (s : Stats) (db : UrDb) (s' : Stats)
      (db' : UrDb), s.processed ≤ N →
      runCsvLoop N dry s db rows = .done s' db' →
      s'.processed = min (s.processed + caseRowCount rows) (N + 1) := by
  intro rows
  induction rows with
  | nil =>
    intro s db s' db' hp h
    cases h
    simp only [caseRowCount, List.countP_nil]
    omega
  | cons row rest ih =>
    intro s db s' db' hp h
    unfold runCsvLoop at h
    have hcc := List.countP_cons
      (fun row => ((extract_case_row row).toOption.join).isSome) row rest
    split at h
    · cases h
    · rename_i heq
      have hdc : caseRowCount (row :: rest) = caseRowCount rest := by
        simp [caseRowCount, List.countP_cons, heq, PyResult.toOption]
      have := ih s db s' db' hp h
      omega
    · rename_i item heq
      have hdc : caseRowCount (row :: rest) = caseRowCount rest + 1 := by
        simp [caseRowCount, List.countP_cons, heq, PyResult.toOption]
      dsimp only at h
      split at h
      · rename_i hcond
        simp only [Bool.and_eq_true, decide_eq_true_eq, ne_eq] at hcond
        cases h
        dsimp only
        omega
      · rename_i hcond
        simp only [Bool.and_eq_true, decide_eq_true_eq, ne_eq, not_and, not_lt] at hcond
        have hle : s.processed + 1 ≤ N := hcond hN0
        split at h
        · have := ih _ _ s' db' (by dsimp only; omega) h
          dsimp only at this
          omega
        · split at h
          · have := ih _ _ s' db' (by dsimp only; omega) h
            dsimp only at this
            omega
          · have := ih _ _ s' db' (by dsimp only; omega) h
            dsimp only at this
            omega

/-- C10 counterexample: with `--limit 1` and two keyed records, the
reported `processed` counter reaches 2, not the cap 1 — the counter is
incremented before the limit check — although only the first record is
persisted (`created = 1`, only key `"A"` stored). -/
theorem C10_counterexample :
    (handleImport { limit := 1, upsert := true } []
        [permitElem (("A").toList), permitElem (("B").toList)]).stats =
      { processed := 2, created := 1, updated := 0, skipped := 0 } ∧
    (handleImport { limit := 1, upsert := true } []
        [permitElem (("A").toList), permitElem (("B").toList)]).db.map Prod.fst =
      [("A").toList] := by
  exact ⟨by decide, by decide⟩

/-- C10 (amended): with `--limit N` (N positive), at most the first N
records go through extraction and persistence
(`created + updated + skipped = min(dataCount, N)`), while the reported
`processed` counter reaches `min(dataCount, N + 1)` — one beyond the
cap when more records remain, because the counter is incremented before
the limit check (in the CSV importer the `parsed` counter behaves the
same way); `--limit 0` processes every record. -/
theorem C10_limit :
    (∀ (o : Opts) (N : Nat), o.limit = N → N ≠ 0 →
      ∀ (els : List XmlElem) (db : PermitDb) (s' : Stats) (db' : PermitDb),
        handleImport o db els = .done s' db' →
        s'.processed = min (dataCount els) (N + 1) ∧
        s'.created + s'.updated + s'.skipped = min (dataCount els) N) ∧
    (∀ (o : Opts), o.limit = 0 →
      ∀ (els : List XmlElem) (db : PermitDb) (s' : Stats) (db' : PermitDb),
        handleImport o db els = .done s' db' → s'.processed = dataCount els) ∧
    (∀ (N : Nat), N ≠ 0 → ∀ (dry : Bool) (rows : List (List (List Char)))
        (db : UrDb) (s' : Stats) (db' : UrDb),
        handleCsv N dry db rows = .done s' db' →
        s'.processed = min (caseRowCount (rows.drop 1)) (N + 1)) := by
  refine ⟨?_, ?_, ?_⟩
  · intro o N hN hN0 els db s' db' h
    unfold handleImport at h
    obtain ⟨h1, h2⟩ := runLoop_limitN_counts o N hN hN0 els {} _ s' db'
      (by simp [Stats.processed]) h
    exact ⟨by simpa using h1, by simpa using h2⟩
  · intro o h0 els db s' db' h
    unfold handleImport at h
    simpa using runLoop_limit0_processed o h0 els {} _ s' db' h
  · intro N hN0 dry rows db s' db' h
    unfold handleCsv at h
    simpa using runCsvLoop_limitN_parsed N hN0 dry (rows.drop 1) {} db s' db'
      (by simp [Stats.processed]) h

/-- C10 witness: the amended theorem at limit 1 over two keyed records,
at limit 0 over the same records, and the CSV loop at limit 1 over a
header plus two case rows. -/
theorem C10_limit_witness :
    ((handleImport { limit := 1, upsert := true } []
        [permitElem (("A").toList), permitElem (("B").toList)]).stats.processed =
      min (dataCount [permitElem (("A").toList), permitElem (("B").toList)]) (1 + 1) ∧
     (handleImport { limit := 1, upsert := true } []
        [permitElem (("A").toList), permitElem (("B").toList)]).stats.created +
      (handleImport { limit := 1, upsert := true } []
        [permitElem (("A").toList), permitElem (("B").toList)]).stats.updated +
      (handleImport { limit := 1, upsert := true } []
        [permitElem (("A").toList), permitElem (("B").toList)]).stats.skipped =
      min (dataCount [permitElem (("A").toList), permitElem (("B").toList)]) 1) ∧
    (handleImport { upsert := true } []
        [permitElem (("A").toList), permitElem (("B").toList)]).stats.processed =
      dataCount [permitElem (("A").toList), permitElem (("B").toList)] ∧
    (handleCsv 1 false [] [[], [("7").toList], [("8").toList]]).stats.processed =
      min (caseRowCount ([[], [("7").toList], [("8").toList]].drop 1)) (1 + 1) := by
  refine ⟨?_, ?_, ?_⟩
  · exact C10_limit.1 { limit := 1, upsert := true } 1 rfl (by decide)
      [permitElem (("A").toList), permitElem (("B").toList)] [] _ _ rfl
  · exact C10_limit.2.1 { upsert := true } rfl
      [permitElem (("A").toList), permitElem (("B").toList)] [] _ _ rfl
  · exact C10_limit.2.2 1 (by decide) false [[], [("7").toList], [("8").toList]]
      [] _ _ rfl

/-! ### C1: a persistence failure rolls back the record but aborts the
run -/

/-- Did the run terminate by an uncaught exception? -/
def RunOut.isRaised {δ : Type} : RunOut δ → Bool
  | .raised _ _ => true
  | _ => false

/-- C1 counterexample: in insert-only mode, importing keys `A`, `A`, `B`
hits an `IntegrityError` on the duplicate `A`; the failing record's
transaction is rolled back (the store keeps exactly the first `A` row),
but the exception propagates out of `handle` — there is no `try/except`
around the per-record block — so the run aborts with `processed = 2`
and record `B` is never reached, contradicting "the import run
continues with the next record". -/
theorem C1_counterexample :
    (handleImport {} [] [permitElem (("A").toList), permitElem (("A").toList),
      permitElem (("B").toList)]).isRaised = true ∧
    (handleImport {} [] [permitElem (("A").toList), permitElem (("A").toList),
      permitElem (("B").toList)]).stats =
      { processed := 2, created := 1, updated := 0, skipped := 0 } ∧
    (handleImport {} [] [permitElem (("A").toList), permitElem (("A").toList),
      permitElem (("B").toList)]).db.map Prod.fst = [("A").toList] := by
  exact ⟨by decide, by decide, by decide⟩

/-- C1 (amended): in both XML importers, when persisting a record
raises, the record's own transaction rolls back — the store is exactly
as it was before the record — but the exception propagates and the run
aborts: the remaining elements are never processed.  (The original
claim said the run continues with the next record; the loop has no
`try/except`, so it does not.) -/
theorem C1_rollback_abort :
    (∀ (o : Opts) (s : Stats) (db : PermitDb) (el : XmlElem)
        (rest : List XmlElem) (r : ParsedPermit),
        el.tag = "Data" → o.limit = 0 → o.dry_run = false →
        extractPermit el = .ok r →
        persistPermit o.upsert db r = .error () →
        runLoop o s db (el :: rest) =
          .raised { s with processed := s.processed + 1 } db) ∧
    (∀ (o : Opts) (s : Stats) (db : UseDb) (el : XmlElem)
        (rest : List XmlElem) (p : ParsedUse),
        el.tag = "Data" → o.limit = 0 → o.dry_run = false →
        extractUse el = some p →
        persistUse o.upsert db p = .error () →
        runLoopUse o s db (el :: rest) =
          .raised { s with processed := s.processed + 1 } db) := by
  constructor
  · intro o s db el rest r htag hlim hdry hex hfail
    unfold runLoop permitStep
    rw [if_pos htag]
    dsimp only
    rw [hlim, hex, hdry]
    dsimp only
    rw [hfail]
    simp
  · intro o s db el rest p htag hlim hdry hex hfail
    unfold runLoopUse useStep
    rw [if_pos htag]
    dsimp only
    rw [hlim, hex, hdry]
    dsimp only
    rw [hfail]
    simp

/-- C1 witness: the amended theorem at a store already holding key `A`
and an insert-only attempt to persist `A` again. -/
theorem C1_rollback_abort_witness :
    runLoop {} {} ((handleImport { upsert := true } []
        [permitElem (("A").toList)]).db) [permitElem (("A").toList)] =
      .raised { ({} : Stats) with processed := ({} : Stats).processed + 1 }
        ((handleImport { upsert := true } [] [permitElem (("A").toList)]).db) :=
  C1_rollback_abort.1 {} {}
    ((handleImport { upsert := true } [] [permitElem (("A").toList)]).db)
    (permitElem (("A").toList)) []
    (extractedPermit (permitElem (("A").toList))) rfl rfl rfl rfl rfl

/-! ### C3: idempotence of the upsert import -/

section KeyedTable

variable {κ α : Type} [BEq κ] [LawfulBEq κ]

/-- Fold a sequence of keyed writes over a table. -/
def applyOps (db : List (κ × α)) (ops : List (κ × α)) : List (κ × α) :=
  ops.foldl (fun d p => alSet p.1 p.2 d) db

/-- Value of the last write to key `k` in an op sequence. -/
def lastVal (k : κ) : List (κ × α) → Option α
  | [] => none
  | p :: rest =>
    match lastVal k rest with
    | some v => some v
    | none => if p.1 == k then some p.2 else none

theorem alLookup_nil (k : κ) : alLookup k ([] : List (κ × α)) = none := rfl

theorem alLookup_cons (k : κ) (a : κ × α) (t : List (κ × α)) :
    alLookup k (a :: t) = if a.1 == k then some a.2 else alLookup k t := by
  unfold alLookup
  rw [List.find?_cons]
  by_cases h : (a.1 == k) = true
  · rw [if_pos h, h]
    rfl
  · have hb : (a.1 == k) = false := by
      cases hba : (a.1 == k)
      · rfl
      · exact absurd hba h
    rw [if_neg h, hb]

theorem alLookup_eq_none_of_not_mem (k : κ) (l : List (κ × α))
    (h : k ∉ l.map Prod.fst) : alLookup k l = none := by
  induction l with
  | nil => rfl
  | cons a t ih =>
    rw [alLookup_cons]
    have h1 : ¬(a.1 == k) = true := by
      simp only [beq_iff_eq]
      intro hc
      apply h
      rw [← hc]
      exact List.mem_map_of_mem Prod.fst (List.mem_cons_self a t)
    rw [if_neg h1]
    exact ih (fun hc => h (List.mem_cons_of_mem _ hc))

theorem alLookup_isSome_iff_any (k : κ) (l : List (κ × α)) :
    (alLookup k l).isSome = l.any (fun p => p.1 == k) := by
  induction l with
  | nil => rfl
  | cons a t ih =>
    rw [alLookup_cons, List.any_cons]
    by_cases h : (a.1 == k) = true
    · rw [h]
      simp
    · rw [Bool.not_eq_true] at h
      rw [h]
      simp only [Bool.false_or]
      exact ih

theorem alLookup_isSome_of_mem (k : κ) (l : List (κ × α))
    (h : k ∈ l.map Prod.fst) : (alLookup k l).isSome = true := by
  induction l with
  | nil => simp at h
  | cons a t ih =>
    rw [alLookup_cons]
    by_cases ha : a.1 = k
    · rw [if_pos (by simpa using ha)]
      rfl
    · rw [if_neg (by simpa using ha)]
      apply ih
      rw [List.map_cons, List.mem_cons] at h
      rcases h with h | h
      · exact absurd h.symm ha
      · exact h

theorem alLookup_alSet (k k' : κ) (v : α) (l : List (κ × α)) :
    alLookup k' (alSet k v l) =
      if k' == k then some v else alLookup k' l := by
  induction l with
  | nil =>
    show alLookup k' [(k, v)] = _
    rw [alLookup_cons, alLookup_nil]
    by_cases h : k' = k
    · subst h
      simp
    · rw [if_neg (by simpa using fun hc : k = k' => h hc.symm),
        if_neg (by simpa using h)]
  | cons a t ih =>
    unfold alSet
    by_cases ha : a.1 = k
    · rw [if_pos (by simpa using ha)]
      rw [alLookup_cons, alLookup_cons]
      by_cases h : k' = k
      · subst h
        simp
      · rw [if_neg (show ¬((k, v).1 == k') = true by simpa using fun hc : k = k' => h hc.symm),
          if_neg (by simpa using h),
          if_neg (show ¬(a.1 == k') = true by simp [ha]; exact fun hc => h hc.symm)]
    · rw [if_neg (by simpa using ha)]
      rw [alLookup_cons, alLookup_cons, ih]
      by_cases h2 : a.1 = k'
      · rw [if_pos (by simpa using h2),
          if_neg (show ¬(k' == k) = true by
            simp only [beq_iff_eq]
            intro hc
            exact ha (h2.trans hc)),
          if_pos (by simpa using h2)]
      · rw [if_neg (by simpa using h2)]
        by_cases h3 : k' = k
        · rw [if_pos (by simpa using h3), if_pos (by simpa using h3)]
        · rw [if_neg (by simpa using h3), if_neg (by simpa using h3),
            if_neg (by simpa using h2)]

theorem keys_alSet_present (k : κ) (v : α) (l : List (κ × α))
    (h : (alLookup k l).isSome = true) :
    (alSet k v l).map Prod.fst = l.map Prod.fst := by
  induction l with
  | nil => simp [alLookup_nil] at h
  | cons a t ih =>
    unfold alSet
    by_cases ha : a.1 = k
    · rw [if_pos (by simpa using ha)]
      simp [ha]
    · rw [if_neg (by simpa using ha)]
      rw [alLookup_cons, if_neg (by simpa using ha)] at h
      simp [ih h]

theorem keys_alSet_absent (k : κ) (v : α) (l : List (κ × α))
    (h : alLookup k l = none) :
    (alSet k v l).map Prod.fst = l.map Prod.fst ++ [k] := by
  induction l with
  | nil => rfl
  | cons a t ih =>
    unfold alSet
    by_cases ha : a.1 = k
    · rw [alLookup_cons, if_pos (by simpa using ha)] at h
      cases h
    · rw [if_neg (by simpa using ha)]
      rw [alLookup_cons, if_neg (by simpa using ha)] at h
      simp [ih h]

theorem nodup_keys_alSet (k : κ) (v : α) (l : List (κ × α))
    (h : (l.map Prod.fst).Nodup) :
    ((alSet k v l).map Prod.fst).Nodup := by
  cases hp : alLookup k l with
  | some w =>
    rw [keys_alSet_present k v l (by rw [hp]; rfl)]
    exact h
  | none =>
    rw [keys_alSet_absent k v l hp]
    rw [List.nodup_append]
    refine ⟨h, List.nodup_singleton k, ?_⟩
    intro x hx hx2
    rw [List.mem_singleton] at hx2
    subst hx2
    have := alLookup_isSome_of_mem x l hx
    rw [hp] at this
    cases this

/-- Extensionality for tables with unique keys: same key sequence and
same lookups force equality. -/
theorem alist_ext : ∀ (l1 l2 : List (κ × α)),
    (l1.map Prod.fst).Nodup →
    l1.map Prod.fst = l2.map Prod.fst →
    (∀ k, alLookup k l1 = alLookup k l2) → l1 = l2 := by
  intro l1
  induction l1 with
  | nil =>
    intro l2 _ hkeys _
    cases l2 with
    | nil => rfl
    | cons b t2 => simp at hkeys
  | cons a t1 ih =>
    intro l2 hnd hkeys hlook
    cases l2 with
    | nil => simp at hkeys
    | cons b t2 =>
      simp only [List.map_cons, List.cons.injEq] at hkeys
      obtain ⟨hk, hkt⟩ := hkeys
      have hval : a.2 = b.2 := by
        have h3 := hlook a.1
        rw [alLookup_cons, alLookup_cons] at h3
        rw [if_pos (show (a.1 == a.1) = true by simp)] at h3
        rw [if_pos (show (b.1 == a.1) = true by rw [← hk]; simp)] at h3
        exact Option.some.inj h3
      have hnd1 : (t1.map Prod.fst).Nodup := (List.nodup_cons.mp (by simpa using hnd)).2
      have hnotin : a.1 ∉ t1.map Prod.fst := (List.nodup_cons.mp (by simpa using hnd)).1
      have hnotin2 : a.1 ∉ t2.map Prod.fst := by
        rw [← hkt]
        exact hnotin
      have htail : ∀ k, alLookup k t1 = alLookup k t2 := by
        intro k
        by_cases hkk : k = a.1
        · subst hkk
          rw [alLookup_eq_none_of_not_mem a.1 t1 hnotin,
            alLookup_eq_none_of_not_mem a.1 t2 hnotin2]
        · have := hlook k
          rw [alLookup_cons, alLookup_cons,
            if_neg (by simpa using fun hc : a.1 = k => hkk hc.symm),
            if_neg (show ¬(b.1 == k) = true by
              rw [← hk]
              simpa using fun hc : a.1 = k => hkk hc.symm)] at this
          exact this
      have := ih t2 hnd1 hkt htail
      cases a
      cases b
      simp only at hk hval
      rw [hk, hval, this]

theorem applyOps_cons (p : κ × α) (ops db : List (κ × α)) :
    applyOps db (p :: ops) = applyOps (alSet p.1 p.2 db) ops := rfl

theorem alSet_eq_append_of_absent (k : κ) (v : α) (l : List (κ × α))
    (h : alLookup k l = none) : alSet k v l = l ++ [(k, v)] := by
  induction l with
  | nil => rfl
  | cons a t ih =>
    rw [alLookup_cons] at h
    by_cases ha : (a.1 == k) = true
    · rw [if_pos ha] at h
      cases h
    · rw [if_neg ha] at h
      unfold alSet
      rw [if_neg ha, ih h]
      rfl

theorem alLookup_applyOps (k : κ) :
    ∀ (ops db : List (κ × α)),
    alLookup k (applyOps db ops) =
      match lastVal k ops with
      | some v => some v
      | none => alLookup k db := by
  intro ops
  induction ops with
  | nil => intro db; rfl
  | cons p rest ih =>
    intro db
    rw [applyOps_cons, ih]
    rcases hl : lastVal k rest with _ | v
    · rw [alLookup_alSet]
      unfold lastVal
      rw [hl]
      dsimp only
      by_cases h : p.1 = k
      · rw [if_pos (show (k == p.1) = true by simp [h]),
          if_pos (by simpa using h)]
      · rw [if_neg (show ¬(k == p.1) = true by
            simp only [beq_iff_eq]
            exact fun hc => h hc.symm),
          if_neg (by simpa using h)]
    · unfold lastVal
      rw [hl]

theorem lastVal_isSome_of_mem (k : κ) (v : α) :
    ∀ ops : List (κ × α), (k, v) ∈ ops → (lastVal k ops).isSome = true := by
  intro ops
  induction ops with
  | nil => intro h; simp at h
  | cons p rest ih =>
    intro h
    unfold lastVal
    rcases hl : lastVal k rest with _ | w
    · dsimp only
      rcases List.mem_cons.mp h with rfl | hmem
      · rw [if_pos (by simp)]
        rfl
      · have := ih hmem
        rw [hl] at this
        cases this
    · rfl

theorem alLookup_applyOps_of_mem (k : κ) (v : α) (ops db : List (κ × α))
    (h : (k, v) ∈ ops) : (alLookup k (applyOps db ops)).isSome = true := by
  rw [alLookup_applyOps]
  rcases hl : lastVal k ops with _ | w
  · have := lastVal_isSome_of_mem k v ops h
    rw [hl] at this
    cases this
  · rfl

theorem keys_applyOps_of_present :
    ∀ (ops db : List (κ × α)),
    (∀ p ∈ ops, (alLookup p.1 db).isSome = true) →
    (applyOps db ops).map Prod.fst = db.map Prod.fst := by
  intro ops
  induction ops with
  | nil => intro db _; rfl
  | cons p rest ih =>
    intro db hpres
    rw [applyOps_cons, ih (alSet p.1 p.2 db) ?_,
      keys_alSet_present p.1 p.2 db (hpres p (by simp))]
    intro q hq
    rw [alLookup_alSet]
    by_cases h : q.1 = p.1
    · rw [if_pos (by simpa using h)]
      rfl
    · rw [if_neg (by simpa using h)]
      exact hpres q (List.mem_cons_of_mem _ hq)

theorem nodup_keys_applyOps :
    ∀ (ops db : List (κ × α)), (db.map Prod.fst).Nodup →
    ((applyOps db ops).map Prod.fst).Nodup := by
  intro ops
  induction ops with
  | nil => intro db h; exact h
  | cons p rest ih =>
    intro db h
    rw [applyOps_cons]
    exact ih _ (nodup_keys_alSet p.1 p.2 db h)

/-- A table already holding every written key is unchanged by replaying
the writes of a sequence it already reflects (`applyOps` with the same
op list is idempotent given unique keys). -/
theorem applyOps_self_of_present (ops db1 : List (κ × α))
    (hnd : (db1.map Prod.fst).Nodup)
    (hpres : ∀ p ∈ ops, (alLookup p.1 db1).isSome = true)
    (hfix : ∀ k v, lastVal k ops = some v → alLookup k db1 = some v) :
    applyOps db1 ops = db1 := by
  refine alist_ext (applyOps db1 ops) db1 (nodup_keys_applyOps ops db1 hnd)
    (keys_applyOps_of_present ops db1 hpres) ?_
  intro k
  rw [alLookup_applyOps]
  rcases hl : lastVal k ops with _ | v
  · rfl
  · exact (hfix k v hl).symm

end KeyedTable

/-! ### Characterizing the upsert run -/

/-- The sequence of keyed writes an element stream performs under
`--upsert`. -/
def opsOf (els : List XmlElem) : List (List Char × PermitRow) :=
  els.filterMap fun el =>
    if el.tag = "Data" then
      match extractPermit el with
      | .ok r => some (r.permit_no, permitRowOf r)
      | _ => none
    else none

/-- Number of `<Data>` elements that extract to a keyed record. -/
def okCount (els : List XmlElem) : Nat :=
  els.countP fun el => el.tag == "Data" &&
    (match extractPermit el with | .ok _ => true | _ => false)

/-- Number of `<Data>` elements skipped for a missing natural key. -/
def skipCount (els : List XmlElem) : Nat :=
  els.countP fun el => el.tag == "Data" &&
    (match extractPermit el with | .skip => true | _ => false)

theorem runLoop_done_noExn (o : Opts) (hlim : o.limit = 0) :
    ∀ (els : List XmlElem) (s : Stats) (db : PermitDb) (s' : Stats)
      (db' : PermitDb), runLoop o s db els = .done s' db' →
      ∀ el ∈ els, el.tag = "Data" → extractPermit el ≠ .exn := by
  intro els
  induction els with
  | nil =>
    intro s db s' db' _ el hel
    simp at hel
  | cons e rest ih =>
    intro s db s' db' h el hel htag hexn
    unfold runLoop at h
    by_cases ht : e.tag = "Data"
    · rw [if_pos ht] at h
      dsimp only at h
      rw [hlim] at h
      rw [if_neg (by simp)] at h
      rcases List.mem_cons.mp hel with rfl | hmem
      · unfold permitStep at h
        rw [hexn] at h
        dsimp only at h
        cases h
      · split at h
        · exact ih _ _ _ _ h el hmem htag hexn
        · cases h
    · rw [if_neg ht] at h
      rcases List.mem_cons.mp hel with rfl | hmem
      · exact ht htag
      · exact ih _ _ _ _ h el hmem htag hexn

theorem runLoop_upsert_db (o : Opts) (hlim : o.limit = 0)
    (hdry : o.dry_run = false) (hup : o.upsert = true) :
    ∀ (els : List XmlElem) (s : Stats) (db : PermitDb),
      (∀ el ∈ els, el.tag = "Data" → extractPermit el ≠ .exn) →
      ∃ s', runLoop o s db els = .done s' (applyOps db (opsOf els)) := by
  intro els
  induction els with
  | nil =>
    intro s db _
    exact ⟨s, rfl⟩
  | cons e rest ih =>
    intro s db hnx
    have hnx' := fun el hm => hnx el (List.mem_cons_of_mem _ hm)
    by_cases ht : e.tag = "Data"
    · unfold runLoop
      rw [if_pos ht]
      dsimp only
      rw [hlim, if_neg (by simp)]
      rcases hex : extractPermit e with _ | _ | r
      · have hops : opsOf (e :: rest) = opsOf rest := by
          simp [opsOf, List.filterMap_cons, ht, hex]
        unfold permitStep
        rw [hex]
        dsimp only
        rw [hops]
        exact ih _ db hnx'
      · exact absurd hex (hnx e (List.mem_cons_self e rest) ht)
      · have hops : opsOf (e :: rest) =
            (r.permit_no, permitRowOf r) :: opsOf rest := by
          simp [opsOf, List.filterMap_cons, ht, hex]
        unfold permitStep
        rw [hex]
        dsimp only
        rw [hdry, if_neg Bool.false_ne_true]
        rcases hlk : alLookup r.permit_no db with _ | row
        · have hper : persistPermit o.upsert db r =
              .ok (db ++ [(r.permit_no, permitRowOf r)], true) := by
            unfold persistPermit
            rw [hlk]
          rw [hper]
          dsimp only
          rw [hops, applyOps_cons]
          dsimp only
          rw [show db ++ [(r.permit_no, permitRowOf r)] =
            alSet r.permit_no (permitRowOf r) db from
            (alSet_eq_append_of_absent _ _ db hlk).symm]
          exact ih _ _ hnx'
        · have hper : persistPermit o.upsert db r =
              .ok (alSet r.permit_no (permitRowOf r) db, false) := by
            unfold persistPermit
            rw [hlk, hup]
            rfl
          rw [hper]
          dsimp only
          rw [if_neg Bool.false_ne_true, hops, applyOps_cons]
          dsimp only
          exact ih _ _ hnx'
    · unfold runLoop
      rw [if_neg ht]
      have hops : opsOf (e :: rest) = opsOf rest := by
        simp [opsOf, List.filterMap_cons, ht]
      rw [hops]
      exact ih _ db hnx'

theorem runLoop_upsert_present (o : Opts) (hlim : o.limit = 0)
    (hdry : o.dry_run = false) (hup : o.upsert = true) :
    ∀ (els : List XmlElem) (s : Stats) (db : PermitDb),
      (∀ el ∈ els, el.tag = "Data" → extractPermit el ≠ .exn) →
      (∀ p ∈ opsOf els, (alLookup p.1 db).isSome = true) →
      runLoop o s db els = .done
        { processed := s.processed + dataCount els
          created := s.created
          updated := s.updated + okCount els
          skipped := s.skipped + skipCount els }
        (applyOps db (opsOf els)) := by
  intro els
  induction els with
  | nil =>
    intro s db _ _
    rfl
  | cons e rest ih =>
    intro s db hnx hpres
    have hnx' := fun el hm => hnx el (List.mem_cons_of_mem _ hm)
    by_cases ht : e.tag = "Data"
    · unfold runLoop
      rw [if_pos ht]
      dsimp only
      rw [hlim, if_neg (by simp)]
      have hdc : dataCount (e :: rest) = dataCount rest + 1 := by
        simp [dataCount, List.countP_cons, ht]
      rcases hex : extractPermit e with _ | _ | r
      · have hops : opsOf (e :: rest) = opsOf rest := by
          simp [opsOf, List.filterMap_cons, ht, hex]
        have hoc : okCount (e :: rest) = okCount rest := by
          simp [okCount, List.countP_cons, ht, hex]
        have hsc : skipCount (e :: rest) = skipCount rest + 1 := by
          simp [skipCount, List.countP_cons, ht, hex]
        unfold permitStep
        rw [hex]
        dsimp only
        rw [hops] at hpres ⊢
        rw [ih _ db hnx' hpres]
        rw [hdc, hoc, hsc]
        congr 1
        simp only [Stats.mk.injEq]
        refine ⟨?_, ?_, ?_, ?_⟩ <;> first | trivial | omega
      · exact absurd hex (hnx e (List.mem_cons_self e rest) ht)
      · have hops : opsOf (e :: rest) =
            (r.permit_no, permitRowOf r) :: opsOf rest := by
          simp [opsOf, List.filterMap_cons, ht, hex]
        have hoc : okCount (e :: rest) = okCount rest + 1 := by
          simp [okCount, List.countP_cons, ht, hex]
        have hsc : skipCount (e :: rest) = skipCount rest := by
          simp [skipCount, List.countP_cons, ht, hex]
        unfold permitStep
        rw [hex]
        dsimp only
        rw [hdry, if_neg Bool.false_ne_true]
        have hhead : (alLookup r.permit_no db).isSome = true := by
          have := hpres (r.permit_no, permitRowOf r) (by rw [hops]; exact List.mem_cons_self _ _)
          exact this
        rcases hlk : alLookup r.permit_no db with _ | row
        · rw [hlk] at hhead
          cases hhead
        · have hper : persistPermit o.upsert db r =
              .ok (alSet r.permit_no (permitRowOf r) db, false) := by
            unfold persistPermit
            rw [hlk, hup]
            rfl
          rw [hper]
          dsimp only
          rw [if_neg Bool.false_ne_true, hops, applyOps_cons]
          dsimp only
          have hpres' : ∀ p ∈ opsOf rest,
              (alLookup p.1 (alSet r.permit_no (permitRowOf r) db)).isSome = true := by
            intro p hp
            rw [alLookup_alSet]
            by_cases h : p.1 = r.permit_no
            · rw [if_pos (by simpa using h)]
              rfl
            · rw [if_neg (by simpa using h)]
              exact hpres p (by rw [hops]; exact List.mem_cons_of_mem _ hp)
          rw [ih _ _ hnx' hpres']
          rw [hdc, hoc, hsc]
          congr 1
          simp only [Stats.mk.injEq]
          refine ⟨?_, ?_, ?_, ?_⟩ <;> first | trivial | omega
    · unfold runLoop
      rw [if_neg ht]
      have hops : opsOf (e :: rest) = opsOf rest := by
        simp [opsOf, List.filterMap_cons, ht]
      have hdc : dataCount (e :: rest) = dataCount rest := by
        simp [dataCount, List.countP_cons, ht]
      have hoc : okCount (e :: rest) = okCount rest := by
        simp [okCount, List.countP_cons, ht]
      have hsc : skipCount (e :: rest) = skipCount rest := by
        simp [skipCount, List.countP_cons, ht]
      rw [hops] at hpres ⊢
      rw [ih _ db hnx' hpres, hdc, hoc, hsc]

/-- The options of an upsert import run (`--upsert`, live mode, no
limit, no clear). -/
def upOpts : Opts := { upsert := true }

/-- C3: running the XML permit import twice in upsert mode over the
same element stream leaves the store after the second run EQUAL to the
store after the first run (hence identical parent-record and child-row
counts, no duplicated or orphaned child rows), and the second run
reports `created = 0` and `updated` equal to the number of keyed
records. -/
theorem C3_idempotent (els : List XmlElem) (db : PermitDb) (s1 : Stats)
    (db1 : PermitDb) (hnodup : (db.map Prod.fst).Nodup)
    (h1 : handleImport upOpts db els = .done s1 db1) :
    handleImport upOpts db1 els =
      .done
        { processed := dataCount els, created := 0, updated := okCount els,
          skipped := skipCount els } db1 := by
  have hrw : ∀ dbx : PermitDb, handleImport upOpts dbx els = runLoop upOpts {} dbx els := by
    intro dbx
    rfl
  rw [hrw] at h1 ⊢
  have hnx : ∀ el ∈ els, el.tag = "Data" → extractPermit el ≠ .exn :=
    runLoop_done_noExn upOpts rfl els {} db s1 db1 h1
  obtain ⟨s1', h1'⟩ := runLoop_upsert_db upOpts rfl rfl rfl els {} db hnx
  have hdb1 : db1 = applyOps db (opsOf els) := by
    rw [h1] at h1'
    cases h1'
    rfl
  have hpres : ∀ p ∈ opsOf els, (alLookup p.1 db1).isSome = true := by
    intro p hp
    rw [hdb1]
    exact alLookup_applyOps_of_mem p.1 p.2 (opsOf els) db hp
  have hfix : ∀ (k : List Char) (v : PermitRow),
      lastVal k (opsOf els) = some v → alLookup k db1 = some v := by
    intro k v hl
    rw [hdb1, alLookup_applyOps, hl]
  have hnd1 : (db1.map Prod.fst).Nodup := by
    rw [hdb1]
    exact nodup_keys_applyOps (opsOf els) db hnodup
  have hrun2 := runLoop_upsert_present upOpts rfl rfl rfl els {} db1 hnx hpres
  rw [applyOps_self_of_present (opsOf els) db1 hnd1 hpres hfix] at hrun2
  simpa using hrun2

/-- C3 witness: importing keys `A` and `B` into an empty store and then
re-running the import over the resulting store. -/
theorem C3_idempotent_witness :
    handleImport upOpts
        ((handleImport upOpts []
          [permitElem (("A").toList), permitElem (("B").toList)]).db)
        [permitElem (("A").toList), permitElem (("B").toList)] =
      .done
        { processed := dataCount [permitElem (("A").toList), permitElem (("B").toList)],
          created := 0,
          updated := okCount [permitElem (("A").toList), permitElem (("B").toList)],
          skipped := skipCount [permitElem (("A").toList), permitElem (("B").toList)] }
        ((handleImport upOpts []
          [permitElem (("A").toList), permitElem (("B").toList)]).db) :=
  C3_idempotent [permitElem (("A").toList), permitElem (("B").toList)] []
    (handleImport upOpts
      [] [permitElem (("A").toList), permitElem (("B").toList)]).stats
    ((handleImport upOpts []
      [permitElem (("A").toList), permitElem (("B").toList)]).db)
    (by simp) rfl

end Wrehub
